import Mathlib

/-!
Maze game: world state, collision rules, jump arc and frame loop.

A shallow embedding of `multiObjectTexture.cpp`.  Floating-point numbers are
modelled by exact rationals; integer grid coordinates by integers.  The C++
globals (`walls`, `player`, `width`, `height`) become the fields of an explicit
`World` value, and every function that mutates them returns the new value.
-/

namespace Maze

/-! ## Data model -/

/-- Modelled from the spec: the wall record declared in `parse.h` (not part of the
sources at hand).  A wall is a tile coordinate; the code reads `walls[i].x` and
`walls[i].y` into `int` variables. -/
structure Wall where
  x : ℤ
  y : ℤ
deriving DecidableEq, Repr

/-- Modelled from the spec: the door record declared in `parse.h`.  Grid position of
the door, floating-point position of the paired key, colour, and the two mutable
flags.  The C++ field `open` is called `isOpen` here because `open` is reserved. -/
structure Door where
  doorx : ℤ
  doory : ℤ
  keyx : ℚ
  keyy : ℚ
  keyz : ℚ
  r : ℚ
  g : ℚ
  b : ℚ
  have_key : Bool
  isOpen : Bool
deriving DecidableEq, Repr

/-- Modelled from the spec: the `player` global declared in `parse.h`: stored player
position, level start, goal position, the transient goal-reached flag and the
door list. -/
structure Player where
  Playerx : ℚ
  Playery : ℚ
  startx : ℚ
  starty : ℚ
  goalx : ℚ
  goaly : ℚ
  goal : Bool
  doors : List Door
deriving DecidableEq, Repr

/-- The globals read and written by the engine: `walls`, `player`, `width`,
`height`. -/
structure World where
  walls : List Wall
  player : Player
  width : ℤ
  height : ℤ
deriving DecidableEq, Repr

/-! ## `collision` -/

/-- The wall test of `collision`:
`fabs(x - walls[i].x) < 0.75 && fabs(y - walls[i].y) < 0.75`. -/
def hitsWall (x y : ℚ) (w : Wall) : Bool :=
  decide (|x - (w.x : ℚ)| < 3 / 4 ∧ |y - (w.y : ℚ)| < 3 / 4)

/-- The door test of `collision`:
`fabs(x - doorx) < 1 && fabs(y - doory) < 1`. -/
def hitsDoor (x y : ℚ) (d : Door) : Bool :=
  decide (|x - (d.doorx : ℚ)| < 1 ∧ |y - (d.doory : ℚ)| < 1)

/-- The distance test `sqrt(pow(x - px, 2) + pow(y - py, 2)) < 0.5` used for keys
and for the goal.  Over the rationals the square root is avoided by comparing
the squared distance with `0.25`; `near_iff_sqrt` shows the two tests agree. -/
def near (x y px py : ℚ) : Bool :=
  decide ((x - px) ^ 2 + (y - py) ^ 2 < 1 / 4)

/-- The first loop of `collision`: does some wall contain the candidate in its
square?  (The loop returns at the first hit.) -/
def wallLoop (x y : ℚ) (walls : List Wall) : Bool :=
  walls.any (hitsWall x y)

/-- The second loop of `collision`.  Open doors are skipped.  The first closed
door in range ends the call: with its key the door is opened and the call
returns `false`, without it the call returns `true`.  `none` means the loop ran
to its end. -/
def doorLoop (x y : ℚ) : List Door → Option (Bool × List Door)
  | [] => none
  | d :: ds =>
    if d.isOpen then
      (doorLoop x y ds).map (fun res => (res.1, d :: res.2))
    else if hitsDoor x y d then
      if d.have_key then some (false, { d with isOpen := true } :: ds)
      else some (true, d :: ds)
    else
      (doorLoop x y ds).map (fun res => (res.1, d :: res.2))

/-- The body of the third loop of `collision` for one door: a door whose key is
not yet held gets `have_key` when the candidate is within 0.5 of the key. -/
def pickKey (x y : ℚ) (d : Door) : Door :=
  if d.have_key then d
  else if near x y d.keyx d.keyy then { d with have_key := true }
  else d

/-- The body of the reset loop of `collision`. -/
def resetDoor (d : Door) : Door :=
  { d with isOpen := false, have_key := false }

/-- `bool collision(float x, float y)`: returns the new globals and the result
(`true` = the candidate collides). -/
def collision (s : World) (x y : ℚ) : World × Bool :=
  if wallLoop x y s.walls then (s, true)
  else
    match doorLoop x y s.player.doors with
    | some (res, ds) => ({ s with player := { s.player with doors := ds } }, res)
    | none =>
      let ds := s.player.doors.map (pickKey x y)
      if near x y s.player.goalx s.player.goaly then
        ({ s with player :=
            { s.player with
              goal := true
              Playerx := s.player.startx
              Playery := s.player.starty
              doors := ds.map resetDoor } }, false)
      else
        ({ s with player := { s.player with doors := ds } }, false)

/-! ## `move_key` -/

/-- The `keyz` update of `move_key`, driven by the running counter `keypos`. -/
def setKeyz (keypos : ℕ) (d : Door) : Door :=
  if keypos = 1 then { d with keyz := 3 / 10 }
  else if keypos = 2 then { d with keyz := -3 / 10 }
  else if keypos = 3 then { d with keyz := 6 / 10 }
  else if keypos = 4 then { d with keyz := -6 / 10 }
  else d

/-- The loop of `move_key` with its counter `keypos` made explicit. -/
def move_keyLoop (x y viewx viewy : ℚ) : ℕ → List Door → List Door
  | _, [] => []
  | keypos, d :: ds =>
    if d.have_key then
      setKeyz keypos { d with keyx := d.keyx + x * viewx, keyy := d.keyy + y * viewy }
        :: move_keyLoop x y viewx viewy (keypos + 1) ds
    else
      d :: move_keyLoop x y viewx viewy keypos ds

/-- `void move_key(float x, float y, float viewx, float viewy)`. -/
def move_key (s : World) (x y viewx viewy : ℚ) : World :=
  { s with player := { s.player with doors := move_keyLoop x y viewx viewy 0 s.player.doors } }

/-! ## `jump` -/

/-- `bool jump(float time, float& playerz)`: the value written to `playerz` and the
returned flag. -/
def jump (time : ℚ) : ℚ × Bool :=
  let z := time - 1 / 10 * time * time
  if z < 0 then (0, false) else (z, true)

/-! ## The frame loop of `main` -/

/-- The locals of the event loop of `main` together with the globals it touches. -/
structure Frame where
  world : World
  camx : ℚ
  camy : ℚ
  camz : ℚ
  angel : ℚ
  viewx : ℚ
  viewy : ℚ
  jumping : Bool
  time : ℚ
  quit : Bool
  fullscreen : Bool
  colR : ℚ
  colG : ℚ
  colB : ℚ
deriving DecidableEq, Repr

/-- The events the loop reacts to.  `cUp` carries the three values `rand01()`
returns. -/
inductive Event where
  | quitWindow
  | escUp
  | fUp
  | left
  | right
  | up
  | down
  | space
  | aDown
  | dDown
  | cUp (r g b : ℚ)
  | other
deriving DecidableEq, Repr

/-- The preprocessor constant `PI`. -/
def PI : ℚ := 314159265 / 100000000

/-- The state of the locals and globals when the event loop is entered: the
camera sits at the stored player position, the heading globals `viewx`,
`viewy` are zero-initialised. -/
def initFrame (w : World) : Frame :=
  { world := w
    camx := w.player.Playerx
    camy := w.player.Playery
    camz := 0
    angel := 0
    viewx := 0
    viewy := 0
    jumping := false
    time := 0
    quit := false
    fullscreen := false
    colR := 1
    colG := 1
    colB := 1 }

/-- The `if (player.goal)` block run for every polled event. -/
def syncGoal (f : Frame) : Frame :=
  if f.world.player.goal then
    { f with
      world := { f.world with player := { f.world.player with goal := false } }
      camx := f.world.player.Playerx
      camy := f.world.player.Playery }
  else f

/-- The block for `SDLK_UP`. -/
def stepUp (f : Frame) : Frame :=
  let camx := f.camx + 1 / 10 * f.viewx
  let camy := f.camy + 1 / 10 * f.viewy
  let res := collision f.world camx camy
  if res.2 then
    { f with
      world := move_key res.1 (-1 / 10) (-1 / 10) f.viewx f.viewy
      camx := camx - 1 / 10 * f.viewx
      camy := camy - 1 / 10 * f.viewy }
  else
    { f with world := res.1, camx := camx, camy := camy }

/-- The block for `SDLK_DOWN`. -/
def stepDown (f : Frame) : Frame :=
  let camx := f.camx - 1 / 10 * f.viewx
  let camy := f.camy - 1 / 10 * f.viewy
  let res := collision f.world camx camy
  if res.2 then
    { f with
      world := move_key res.1 (1 / 10) (1 / 10) f.viewx f.viewy
      camx := camx + 1 / 10 * f.viewx
      camy := camy + 1 / 10 * f.viewy }
  else
    { f with world := res.1, camx := camx, camy := camy }

/-- The body of the `SDL_PollEvent` loop for one event.  The library functions
`sin` and `cos` are parameters. -/
def handleEvent (sin cos : ℚ → ℚ) (f : Frame) (e : Event) : Frame :=
  let f1 := syncGoal f
  match e with
  | Event.quitWindow => { f1 with quit := true }
  | Event.escUp => { f1 with quit := true }
  | Event.fUp => { f1 with fullscreen := !f1.fullscreen }
  | Event.left =>
    let a := f1.angel - 15
    { f1 with angel := a, viewx := sin (a * PI / 180), viewy := cos (a * PI / 180) }
  | Event.right =>
    let a := f1.angel + 15
    { f1 with angel := a, viewx := sin (a * PI / 180), viewy := cos (a * PI / 180) }
  | Event.up => stepUp f1
  | Event.down => stepDown f1
  | Event.space => { f1 with jumping := true, time := 0 }
  | Event.aDown => { f1 with camz := f1.camz + 1 }
  | Event.dDown => { f1 with camz := f1.camz - 1 }
  | Event.cUp r g b => { f1 with colR := r, colG := g, colB := b }
  | Event.other => f1

/-- The `if (jumping)` block at the top of every iteration of the outer loop. -/
def advanceJump (f : Frame) : Frame :=
  if f.jumping then
    { f with jumping := (jump f.time).2, camz := (jump f.time).1, time := f.time + 1 / 10 }
  else f

/-- One iteration of the outer loop up to the point where drawing starts: advance
the jump, then drain the event queue. -/
def frameIter (sin cos : ℚ → ℚ) (f : Frame) (events : List Event) : Frame :=
  events.foldl (handleEvent sin cos) (advanceJump f)

/-! ## Predicates used in the statements -/

/-- The candidate lies outside the 0.75 square of every wall. -/
def outsideWalls (walls : List Wall) (x y : ℚ) : Prop :=
  ∀ w ∈ walls, ¬ (|x - (w.x : ℚ)| < 3 / 4 ∧ |y - (w.y : ℚ)| < 3 / 4)

/-- No closed door has the candidate in its 1.0 square. -/
def noClosedDoorInRange (doors : List Door) (x y : ℚ) : Prop :=
  ∀ d ∈ doors, d.isOpen = false → ¬ (|x - (d.doorx : ℚ)| < 1 ∧ |y - (d.doory : ℚ)| < 1)

/-- The call `collision(x, y)` runs the goal reset block: no wall hit, the door
loop ran to its end, and the goal is within 0.5. -/
def performsReset (s : World) (x y : ℚ) : Bool :=
  !wallLoop x y s.walls && (doorLoop x y s.player.doors).isNone
    && near x y s.player.goalx s.player.goaly

/-- Neither flag of a door went from `true` to `false` between `d` and `d2`. -/
def FlagsKept (d d2 : Door) : Prop :=
  (d.isOpen = true → d2.isOpen = true) ∧ (d.have_key = true → d2.have_key = true)

/-- The camera is outside every wall's square, and so are the two places the
`if (player.goal)` block can move it to: the level start, and the stored player
position whenever the goal flag is pending. -/
def CameraClear (f : Frame) : Prop :=
  outsideWalls f.world.walls f.camx f.camy ∧
    outsideWalls f.world.walls f.world.player.startx f.world.player.starty ∧
    (f.world.player.goal = true →
      outsideWalls f.world.walls f.world.player.Playerx f.world.player.Playery)

/-- Modelled from the spec: what the map loader of `parse.h` (not part of the sources
at hand) guarantees about the player start.  The start marker sits on a grid
cell, so the level start has integer coordinates; every cell carries one type
code, so that cell is not a wall tile; and the stored player position is the
level start (the loader sets both from the marker, and `collision` only ever
stores the level start again). -/
def StartOnFreeTile (w : World) : Prop :=
  w.player.startx.den = 1 ∧ w.player.starty.den = 1 ∧
    (⟨w.player.startx.num, w.player.starty.num⟩ : Wall) ∉ w.walls ∧
    w.player.Playerx = w.player.startx ∧ w.player.Playery = w.player.starty

instance (w : World) : Decidable (StartOnFreeTile w) := by
  unfold StartOnFreeTile
  infer_instance

instance (walls : List Wall) (x y : ℚ) : Decidable (outsideWalls walls x y) := by
  unfold outsideWalls
  infer_instance

instance (doors : List Door) (x y : ℚ) : Decidable (noClosedDoorInRange doors x y) := by
  unfold noClosedDoorInRange
  infer_instance

instance (d d2 : Door) : Decidable (FlagsKept d d2) := by
  unfold FlagsKept
  infer_instance

instance (f : Frame) : Decidable (CameraClear f) := by
  unfold CameraClear
  infer_instance

/-! ## Concrete worlds used as inputs -/

/-- A red door record with its key lying on the floor (`keyz = 0`). -/
def mkDoor (doorx doory : ℤ) (keyx keyy : ℚ) (have_key isOpen : Bool) : Door :=
  { doorx := doorx, doory := doory, keyx := keyx, keyy := keyy, keyz := 0,
    r := 1, g := 0, b := 0, have_key := have_key, isOpen := isOpen }

/-- A world on a 10 x 10 grid with the player stored at the level start. -/
def mkWorld (walls : List Wall) (doors : List Door) (startx starty goalx goaly : ℚ) : World :=
  { walls := walls
    player :=
      { Playerx := startx, Playery := starty, startx := startx, starty := starty,
        goalx := goalx, goaly := goaly, goal := false, doors := doors }
    width := 10
    height := 10 }

/-- One wall at (2,2), with a closed door, its key and the goal all next to it. -/
def wallWorld : World :=
  mkWorld [⟨2, 2⟩] [mkDoor 2 3 2 (5 / 2) false false] 0 0 2 (5 / 2)

/-- Two adjacent closed doors; the key of the first one is held, the key of the
second one is not. -/
def twoDoorWorld : World :=
  mkWorld [] [mkDoor 3 3 1 1 true false, mkDoor 3 4 7 7 false false] 0 0 9 9

/-- A heading table that always answers 0, for events that do not rotate. -/
def zeroTrig : ℚ → ℚ := fun _ => 0

/-- A single closed door at (3,3) whose key is already held. -/
def keyHeldWorld : World :=
  mkWorld [] [mkDoor 3 3 5 5 true false] 0 0 9 9

/-- The camera stands at (3,2) in `keyHeldWorld`, heading along the y axis. -/
def keyHeldFrame : Frame :=
  { initFrame keyHeldWorld with camx := 3, camy := 2, viewx := 0, viewy := 1 }

/-- A closed door at (3,3) whose key is held, and the key of a second door lying at
(3,2), inside the first door's square. -/
def keyBehindDoorWorld : World :=
  mkWorld [] [mkDoor 3 3 5 5 true false, mkDoor 7 7 3 2 false false] 0 0 9 9

/-- The goal at (1,1) next to a wall at (1,2); one door is open with its key held. -/
def goalByWallWorld : World :=
  mkWorld [⟨1, 2⟩] [mkDoor 5 5 6 6 true true] 0 0 1 1

/-- Two keys lying side by side, at (4,4) and (4, 4.2), for two far away doors. -/
def twoKeyWorld : World :=
  mkWorld [] [mkDoor 8 8 4 4 false false, mkDoor 8 1 4 (21 / 5) false false] 0 0 1 8

/-- One wall at (2,2); the camera stands at (2, 1.2), heading along the y axis
towards the wall. -/
def wallAheadFrame : Frame :=
  { initFrame (mkWorld [⟨2, 2⟩] [] 0 0 9 9) with camx := 2, camy := 6 / 5, viewx := 0, viewy := 1 }

/-! ## Drawing -/

/-- The three meshes packed into the vertex buffer, named after the files they are
read from: `cube.txt` (range `startVertTeapot`, `numVertsTeapot`), `teapot.txt`
(range `startVertKnot`, `numVertsKnot`) and `knot.txt` (range `startVertGoal`,
`numVertsGoal`). -/
inductive Mesh where
  | cube
  | teapot
  | knot
deriving DecidableEq, Repr

/-- What one `glDrawArrays` call is issued with: the mesh range, the model
matrix (a translation followed by a uniform scale), the `texID` uniform and
the `inColor` uniform. -/
structure DrawInstr where
  mesh : Mesh
  tx : ℚ
  ty : ℚ
  tz : ℚ
  scale : ℚ
  texID : ℤ
  r : ℚ
  g : ℚ
  b : ℚ
deriving DecidableEq, Repr

/-- The draw call in the loop body of `drawWalls`. -/
def wallInstr (colR colG colB : ℚ) (w : Wall) : DrawInstr :=
  { mesh := Mesh.cube, tx := w.x, ty := w.y, tz := 0, scale := 1, texID := 1,
    r := colR, g := colG, b := colB }

/-- The draw call in the loop body of `drawFloors`. -/
def floorInstr (colR colG colB : ℚ) (i j : ℕ) : DrawInstr :=
  { mesh := Mesh.cube, tx := i, ty := j, tz := -1, scale := 1, texID := 0,
    r := colR, g := colG, b := colB }

/-- `drawKey_Door` as `main` calls it for the key of a door (`key = true`). -/
def keyInstr (d : Door) : DrawInstr :=
  { mesh := Mesh.teapot, tx := d.keyx, ty := d.keyy, tz := d.keyz, scale := 1 / 2, texID := -1,
    r := d.r, g := d.g, b := d.b }

/-- `drawKey_Door` as `main` calls it for the door itself (`key = false`). -/
def doorInstr (d : Door) : DrawInstr :=
  { mesh := Mesh.cube, tx := d.doorx, ty := d.doory, tz := 0, scale := 1, texID := -1,
    r := d.r, g := d.g, b := d.b }

/-- The draw call of `drawGoal`. -/
def goalInstr (colR colG colB : ℚ) (p : Player) : DrawInstr :=
  { mesh := Mesh.knot, tx := p.goalx, ty := p.goaly, tz := 0, scale := 1, texID := 0,
    r := colR, g := colG, b := colB }

/-- `drawWalls`: one call per wall, in stored order. -/
def drawWalls (colR colG colB : ℚ) (walls : List Wall) : List DrawInstr :=
  walls.map (wallInstr colR colG colB)

/-- `drawFloors`: `for (i = 0; i < width; i++) for (j = 0; j < height; j++)`. -/
def drawFloors (colR colG colB : ℚ) (width height : ℤ) : List DrawInstr :=
  (List.range width.toNat).flatMap fun i =>
    (List.range height.toNat).map fun j => floorInstr colR colG colB i j

/-- The door loop of `main` between `drawFloors` and `drawGoal`. -/
def drawDoors : List Door → List DrawInstr
  | [] => []
  | d :: ds =>
    (if !d.have_key then [keyInstr d] else []) ++
      ((if !d.isOpen then [doorInstr d] else []) ++ drawDoors ds)

/-- The draw calls of one iteration of the outer loop, in the order they are
issued. -/
def drawFrame (f : Frame) : List DrawInstr :=
  drawWalls f.colR f.colG f.colB f.world.walls ++
    (drawFloors f.colR f.colG f.colB f.world.width f.world.height ++
      (drawDoors f.world.player.doors ++ [goalInstr f.colR f.colG f.colB f.world.player]))

/-! ## Runs of the engine -/

/-- Several iterations of the outer loop; each gets the events polled in it. -/
def runFrames (sin cos : ℚ → ℚ) (f : Frame) (queues : List (List Event)) : Frame :=
  queues.foldl (frameIter sin cos) f

/-- The event neither triggers a jump nor changes the camera height by hand. -/
def Event.leavesJump : Event → Bool
  | Event.space => false
  | Event.aDown => false
  | Event.dDown => false
  | _ => true

/-- A call of one of the two functions that write to the door records. -/
inductive Call where
  | collision (x y : ℚ)
  | move_key (x y viewx viewy : ℚ)
deriving DecidableEq, Repr

/-- The world after one call. -/
def runCall (s : World) : Call → World
  | Call.collision x y => (collision s x y).1
  | Call.move_key x y viewx viewy => move_key s x y viewx viewy

/-- The world after a sequence of calls. -/
def runCalls (s : World) (calls : List Call) : World :=
  calls.foldl runCall s

/-- Every open door of the list has its key. -/
def OpenHasKey (doors : List Door) : Prop :=
  ∀ d ∈ doors, d.isOpen = true → d.have_key = true

instance (doors : List Door) : Decidable (OpenHasKey doors) := by
  unfold OpenHasKey
  infer_instance

/-- The fields of a door record that no function assigns: door position and
colour. -/
def SameDoorAndColour (d d2 : Door) : Prop :=
  d2.doorx = d.doorx ∧ d2.doory = d.doory ∧ d2.r = d.r ∧ d2.g = d.g ∧ d2.b = d.b

instance (d d2 : Door) : Decidable (SameDoorAndColour d d2) := by
  unfold SameDoorAndColour
  infer_instance

/-- The key position of a door record. -/
def SameKeyPos (d d2 : Door) : Prop :=
  d2.keyx = d.keyx ∧ d2.keyy = d.keyy ∧ d2.keyz = d.keyz

instance (d d2 : Door) : Decidable (SameKeyPos d d2) := by
  unfold SameKeyPos
  infer_instance

/-! ## More concrete inputs -/

/-- A stand-in for `cos` that always answers 1; together with `zeroTrig` for `sin`
it agrees with the library functions at angle 0. -/
def oneTrig : ℚ → ℚ := fun _ => 1

/-- The level start at (2,0), a wall at (2,2) straight ahead, and on the way the key,
lying at (2,1), of a door at (7,7). -/
def corridorWorld : World :=
  mkWorld [⟨2, 2⟩] [mkDoor 7 7 2 1 false false] 2 0 9 9

/-- The frame after the player, starting from the initial frame of `corridorWorld`,
has turned left and back right (heading angle 0 again) and pressed the up key
`n` times. -/
def corridorWalk (n : ℕ) : Frame :=
  ([Event.left, Event.right] ++ List.replicate n Event.up).foldl
    (handleEvent zeroTrig oneTrig) (initFrame corridorWorld)

/-- The frame right after the space key was handled in the initial frame of
`twoKeyWorld`: a jump has just been triggered. -/
def jumpStartFrame : Frame :=
  handleEvent zeroTrig zeroTrig (initFrame twoKeyWorld) Event.space

/-- No walls, no doors, start at (0,0), goal at (5,5); the camera stands at
(5, 4.5), heading along the y axis towards the goal. -/
def goalAheadFrame : Frame :=
  { initFrame (mkWorld [] [] 0 0 5 5) with camx := 5, camy := 9 / 2, viewx := 0, viewy := 1 }

/-- A 2 x 3 grid with one wall and one door whose key is not held. -/
def smallWorld : World :=
  { mkWorld [⟨1, 1⟩] [mkDoor 0 2 1 0 false false] 0 0 1 2 with width := 2, height := 3 }

/-! ## Basic facts about the tests -/

theorem hitsWall_iff (x y : ℚ) (w : Wall) :
    hitsWall x y w = true ↔ |x - (w.x : ℚ)| < 3 / 4 ∧ |y - (w.y : ℚ)| < 3 / 4 := by
  simp [hitsWall]

theorem hitsDoor_iff (x y : ℚ) (d : Door) :
    hitsDoor x y d = true ↔ |x - (d.doorx : ℚ)| < 1 ∧ |y - (d.doory : ℚ)| < 1 := by
  simp [hitsDoor]

theorem near_iff (x y px py : ℚ) :
    near x y px py = true ↔ (x - px) ^ 2 + (y - py) ^ 2 < 1 / 4 := by
  simp [near]

/-- The rational test `near` decides the floating-point source test
`sqrt(pow(x - px, 2) + pow(y - py, 2)) < 0.5` read over the reals. -/
theorem near_iff_sqrt (x y px py : ℚ) :
    near x y px py = true ↔
      Real.sqrt (((x : ℝ) - px) ^ 2 + ((y : ℝ) - py) ^ 2) < 1 / 2 := by
  rw [near_iff, Real.sqrt_lt' (by norm_num : (0 : ℝ) < 1 / 2)]
  have h : ((1 : ℝ) / 2) ^ 2 = ((1 / 4 : ℚ) : ℝ) := by norm_num
  rw [h]
  constructor
  · intro hq
    have := (Rat.cast_lt (K := ℝ)).mpr hq
    push_cast at this ⊢
    linarith
  · intro hr
    have : (((x - px) ^ 2 + (y - py) ^ 2 : ℚ) : ℝ) < ((1 / 4 : ℚ) : ℝ) := by
      push_cast at hr ⊢
      linarith
    exact (Rat.cast_lt (K := ℝ)).mp this

theorem wallLoop_eq_false_iff (x y : ℚ) (walls : List Wall) :
    wallLoop x y walls = false ↔ outsideWalls walls x y := by
  simp only [wallLoop, outsideWalls, List.any_eq_false, hitsWall_iff]

theorem wallLoop_eq_true_iff (x y : ℚ) (walls : List Wall) :
    wallLoop x y walls = true ↔
      ∃ w ∈ walls, |x - (w.x : ℚ)| < 3 / 4 ∧ |y - (w.y : ℚ)| < 3 / 4 := by
  simp only [wallLoop, List.any_eq_true, hitsWall_iff]

/-! ## The door loop -/

theorem doorLoop_eq_none_iff_hits (x y : ℚ) (ds : List Door) :
    doorLoop x y ds = none ↔ ∀ d ∈ ds, d.isOpen = false → hitsDoor x y d = false := by
  induction ds with
  | nil => simp [doorLoop]
  | cons d ds ih =>
    by_cases ho : d.isOpen = true
    · simp [doorLoop, ho, ih]
    · by_cases hr : hitsDoor x y d = true
      · by_cases hk : d.have_key = true <;> simp [doorLoop, ho, hr, hk]
      · simp [doorLoop, ho, hr, ih]

theorem noClosedDoorInRange_iff (x y : ℚ) (ds : List Door) :
    noClosedDoorInRange ds x y ↔ ∀ d ∈ ds, d.isOpen = false → hitsDoor x y d = false := by
  unfold noClosedDoorInRange
  constructor
  · intro h d hd ho
    have := h d hd ho
    rw [← hitsDoor_iff] at this
    simpa using this
  · intro h d hd ho
    rw [← hitsDoor_iff]
    simp [h d hd ho]

theorem doorLoop_eq_none_iff (x y : ℚ) (ds : List Door) :
    doorLoop x y ds = none ↔ noClosedDoorInRange ds x y := by
  rw [doorLoop_eq_none_iff_hits, noClosedDoorInRange_iff]

/-! ## Lists of doors, position by position -/

theorem forall₂_getElem? {α : Type} {R : α → α → Prop} {l l2 : List α}
    (h : List.Forall₂ R l l2) (i : ℕ) (a : α) (ha : l[i]? = some a) :
    ∃ b, l2[i]? = some b ∧ R a b := by
  induction h generalizing i with
  | nil => simp at ha
  | cons hab _ ih =>
    cases i with
    | zero =>
      simp only [List.getElem?_cons_zero, Option.some.injEq] at ha
      subst ha
      exact ⟨_, by simp, hab⟩
    | succ n =>
      simp only [List.getElem?_cons_succ] at ha ⊢
      exact ih n ha

theorem forall₂_map_right {α : Type} {R : α → α → Prop} (f : α → α)
    (h : ∀ a, R a (f a)) (l : List α) : List.Forall₂ R l (l.map f) := by
  induction l with
  | nil => exact List.Forall₂.nil
  | cons a l ih => exact List.Forall₂.cons (h a) ih

theorem forall₂_self {α : Type} {R : α → α → Prop} (h : ∀ a, R a a) (l : List α) :
    List.Forall₂ R l l := by
  induction l with
  | nil => exact List.Forall₂.nil
  | cons a l ih => exact List.Forall₂.cons (h a) ih

theorem flagsKept_refl (d : Door) : FlagsKept d d := ⟨id, id⟩

theorem flagsKept_trans {a b c : Door} (h1 : FlagsKept a b) (h2 : FlagsKept b c) :
    FlagsKept a c :=
  ⟨fun h => h2.1 (h1.1 h), fun h => h2.2 (h1.2 h)⟩

theorem doorLoop_flagsKept (x y : ℚ) (ds : List Door) (res : Bool) (ds2 : List Door)
    (h : doorLoop x y ds = some (res, ds2)) : List.Forall₂ FlagsKept ds ds2 := by
  induction ds generalizing ds2 with
  | nil => simp [doorLoop] at h
  | cons d ds ih =>
    have hrec : Option.map (fun r : Bool × List Door => (r.1, d :: r.2)) (doorLoop x y ds)
        = some (res, ds2) → List.Forall₂ FlagsKept (d :: ds) ds2 := by
      intro hm
      cases hd : doorLoop x y ds with
      | none => simp [hd] at hm
      | some p =>
        obtain ⟨b, t⟩ := p
        simp only [hd, Option.map_some', Option.some.injEq, Prod.mk.injEq] at hm
        obtain ⟨rfl, rfl⟩ := hm
        exact List.Forall₂.cons (flagsKept_refl d) (ih t (by rw [hd]))
    unfold doorLoop at h
    split_ifs at h with ho hr hk
    · exact hrec h
    · simp only [Option.some.injEq, Prod.mk.injEq] at h
      obtain ⟨_, rfl⟩ := h
      exact List.Forall₂.cons ⟨fun _ => rfl, fun hh => hh⟩ (forall₂_self flagsKept_refl ds)
    · simp only [Option.some.injEq, Prod.mk.injEq] at h
      obtain ⟨_, rfl⟩ := h
      exact forall₂_self flagsKept_refl _
    · exact hrec h

theorem doorLoop_blocked_at (x y : ℚ) (ds : List Door) (i : ℕ) (D : Door)
    (hD : ds[i]? = some D) (ho : D.isOpen = false) (hk : D.have_key = false)
    (hr : hitsDoor x y D = true)
    (hpre : ∀ j d, j < i → ds[j]? = some d → d.isOpen = false → d.have_key = true →
      hitsDoor x y d = false) :
    doorLoop x y ds = some (true, ds) := by
  induction ds generalizing i with
  | nil => simp at hD
  | cons d ds ih =>
    cases i with
    | zero =>
      simp only [List.getElem?_cons_zero, Option.some.injEq] at hD
      subst hD
      simp [doorLoop, ho, hk, hr]
    | succ n =>
      simp only [List.getElem?_cons_succ] at hD
      have hrec := ih n hD (fun j e hj he => hpre (j + 1) e (by omega) (by simpa using he))
      have hhead := hpre 0 d (by omega) (by simp)
      by_cases hdo : d.isOpen = true
      · simp [doorLoop, hdo, hrec]
      · by_cases hdr : hitsDoor x y d = true
        · by_cases hdk : d.have_key = true
          · have := hhead (by simpa using hdo) hdk
            simp [hdr] at this
          · simp [doorLoop, hdo, hdr, hdk]
        · simp [doorLoop, hdo, hdr, hrec]

theorem doorLoop_opens_at (x y : ℚ) (ds : List Door) (i : ℕ) (D : Door)
    (hD : ds[i]? = some D) (ho : D.isOpen = false) (hk : D.have_key = true)
    (hr : hitsDoor x y D = true)
    (hpre : ∀ j d, j < i → ds[j]? = some d → d.isOpen = false → hitsDoor x y d = false) :
    doorLoop x y ds = some (false, ds.set i { D with isOpen := true }) := by
  induction ds generalizing i with
  | nil => simp at hD
  | cons d ds ih =>
    cases i with
    | zero =>
      simp only [List.getElem?_cons_zero, Option.some.injEq] at hD
      subst hD
      simp [doorLoop, ho, hk, hr]
    | succ n =>
      simp only [List.getElem?_cons_succ] at hD
      have hrec := ih n hD (fun j e hj he => hpre (j + 1) e (by omega) (by simpa using he))
      have hhead := hpre 0 d (by omega) (by simp)
      by_cases hdo : d.isOpen = true
      · simp [doorLoop, hdo, hrec]
      · have hdr := hhead (by simpa using hdo)
        simp [doorLoop, hdo, hdr, hrec]

/-! ## The four ways through `collision` -/

theorem collision_of_wall (s : World) (x y : ℚ) (hw : wallLoop x y s.walls = true) :
    collision s x y = (s, true) := by
  simp [collision, hw]

theorem collision_of_door (s : World) (x y : ℚ) (res : Bool) (ds : List Door)
    (hw : wallLoop x y s.walls = false) (hd : doorLoop x y s.player.doors = some (res, ds)) :
    collision s x y = ({ s with player := { s.player with doors := ds } }, res) := by
  simp [collision, hw, hd]

theorem collision_of_goal (s : World) (x y : ℚ)
    (hw : wallLoop x y s.walls = false) (hd : doorLoop x y s.player.doors = none)
    (hg : near x y s.player.goalx s.player.goaly = true) :
    collision s x y =
      ({ s with player :=
          { s.player with
            goal := true
            Playerx := s.player.startx
            Playery := s.player.starty
            doors := (s.player.doors.map (pickKey x y)).map resetDoor } }, false) := by
  simp [collision, hw, hd, hg]

theorem collision_of_clear (s : World) (x y : ℚ)
    (hw : wallLoop x y s.walls = false) (hd : doorLoop x y s.player.doors = none)
    (hg : near x y s.player.goalx s.player.goaly = false) :
    collision s x y =
      ({ s with player := { s.player with doors := s.player.doors.map (pickKey x y) } },
        false) := by
  simp [collision, hw, hd, hg]

/-! ## C1: the wall rule -/

/-- C1: when the candidate lies in the 0.75 square of some wall, `collision` returns
`true` and the whole world state (door flags, goal flag, stored player position
included) is the one it was called with. -/
theorem collision_wall_rejects (s : World) (w : Wall) (x y : ℚ) (hw : w ∈ s.walls)
    (hx : |x - (w.x : ℚ)| < 3 / 4) (hy : |y - (w.y : ℚ)| < 3 / 4) :
    collision s x y = (s, true) :=
  collision_of_wall s x y ((wallLoop_eq_true_iff x y s.walls).mpr ⟨w, hw, hx, hy⟩)

/-- Witness for C1: the candidate (2, 2.5) is in the square of the wall at (2,2) and
at the same time in range of a door, on a key and on the goal. -/
theorem collision_wall_rejects_witness :
    hitsDoor 2 (5 / 2) (mkDoor 2 3 2 (5 / 2) false false) = true ∧
      near 2 (5 / 2) 2 (5 / 2) = true ∧
      collision wallWorld 2 (5 / 2) = (wallWorld, true) :=
  ⟨by norm_num [hitsDoor, mkDoor, abs_lt], by norm_num [near],
    collision_wall_rejects wallWorld ⟨2, 2⟩ 2 (5 / 2) (by simp [wallWorld, mkWorld])
      (by norm_num [abs_lt]) (by norm_num [abs_lt])⟩

/-! ## C2: a door whose key is missing -/

/-- C2, counterexample: in `twoDoorWorld` the second door has no key and the
candidate (3, 3.5) is inside its 1.0 square, yet `collision` returns `false`: the
first door, also in range and with its key, is opened and ends the call. -/
theorem door_without_key_not_always_rejected :
    ∃ D ∈ twoDoorWorld.player.doors, D.have_key = false ∧
      |(3 : ℚ) - (D.doorx : ℚ)| < 1 ∧ |(7 / 2 : ℚ) - (D.doory : ℚ)| < 1 ∧
      (collision twoDoorWorld 3 (7 / 2)).2 = false := by
  refine ⟨mkDoor 3 4 7 7 false false, by simp [twoDoorWorld, mkWorld], rfl, ?_, ?_, ?_⟩
  · norm_num [mkDoor, abs_lt]
  · norm_num [mkDoor, abs_lt]
  · norm_num [collision, twoDoorWorld, mkWorld, mkDoor, wallLoop, doorLoop, hitsDoor, abs_lt]

/-- C2, amended: a closed door `D` without its key rejects every candidate in its
1.0 square, and the world is left as it was, provided no closed door that
precedes `D` in the list and holds its key is in range. -/
theorem door_without_key_rejects (s : World) (x y : ℚ) (i : ℕ) (D : Door)
    (hD : s.player.doors[i]? = some D) (hclosed : D.isOpen = false)
    (hkey : D.have_key = false)
    (hx : |x - (D.doorx : ℚ)| < 1) (hy : |y - (D.doory : ℚ)| < 1)
    (hpre : ∀ j d, j < i → s.player.doors[j]? = some d → d.isOpen = false →
      d.have_key = true → ¬ (|x - (d.doorx : ℚ)| < 1 ∧ |y - (d.doory : ℚ)| < 1)) :
    collision s x y = (s, true) := by
  by_cases hw : wallLoop x y s.walls = true
  · exact collision_of_wall s x y hw
  · have hd := doorLoop_blocked_at x y s.player.doors i D hD hclosed hkey
      ((hitsDoor_iff x y D).mpr ⟨hx, hy⟩)
      (fun j d hj hd ho hk => by
        have := hpre j d hj hd ho hk
        rw [← hitsDoor_iff] at this
        simpa using this)
    rw [collision_of_door s x y true s.player.doors (by simpa using hw) hd]

/-- Witness for C2 (amended): in `twoDoorWorld` the candidate (3, 4.5) is in the
square of the second door only; the first door, which holds its key, is out of
range, and the second door rejects the move. -/
theorem door_without_key_rejects_witness :
    collision twoDoorWorld 3 (9 / 2) = (twoDoorWorld, true) :=
  door_without_key_rejects twoDoorWorld 3 (9 / 2) 1 (mkDoor 3 4 7 7 false false)
    (by simp [twoDoorWorld, mkWorld]) rfl rfl
    (by norm_num [mkDoor, abs_lt]) (by norm_num [mkDoor, abs_lt])
    (fun j d hj hd _ _ => by
      have hj0 : j = 0 := by omega
      subst hj0
      simp only [twoDoorWorld, mkWorld, List.getElem?_cons_zero, Option.some.injEq] at hd
      subst hd
      norm_num [mkDoor, abs_lt])

/-! ## Move steps of the frame loop -/

theorem handleEvent_up (sin cos : ℚ → ℚ) (f : Frame) :
    handleEvent sin cos f Event.up = stepUp (syncGoal f) := rfl

theorem handleEvent_down (sin cos : ℚ → ℚ) (f : Frame) :
    handleEvent sin cos f Event.down = stepDown (syncGoal f) := rfl

theorem stepUp_of_accept (f : Frame)
    (h : (collision f.world (f.camx + 1 / 10 * f.viewx) (f.camy + 1 / 10 * f.viewy)).2 = false) :
    stepUp f =
      { f with
        world := (collision f.world (f.camx + 1 / 10 * f.viewx) (f.camy + 1 / 10 * f.viewy)).1
        camx := f.camx + 1 / 10 * f.viewx
        camy := f.camy + 1 / 10 * f.viewy } := by
  simp only [stepUp, h, Bool.false_eq_true, if_false]

theorem stepDown_of_accept (f : Frame)
    (h : (collision f.world (f.camx - 1 / 10 * f.viewx) (f.camy - 1 / 10 * f.viewy)).2 = false) :
    stepDown f =
      { f with
        world := (collision f.world (f.camx - 1 / 10 * f.viewx) (f.camy - 1 / 10 * f.viewy)).1
        camx := f.camx - 1 / 10 * f.viewx
        camy := f.camy - 1 / 10 * f.viewy } := by
  simp only [stepDown, h, Bool.false_eq_true, if_false]

theorem stepUp_of_reject (f : Frame)
    (h : (collision f.world (f.camx + 1 / 10 * f.viewx) (f.camy + 1 / 10 * f.viewy)).2 = true) :
    stepUp f =
      { f with
        world := move_key
          (collision f.world (f.camx + 1 / 10 * f.viewx) (f.camy + 1 / 10 * f.viewy)).1
          (-1 / 10) (-1 / 10) f.viewx f.viewy
        camx := f.camx
        camy := f.camy } := by
  simp only [stepUp, h, if_true, add_sub_cancel_right]

theorem stepDown_of_reject (f : Frame)
    (h : (collision f.world (f.camx - 1 / 10 * f.viewx) (f.camy - 1 / 10 * f.viewy)).2 = true) :
    stepDown f =
      { f with
        world := move_key
          (collision f.world (f.camx - 1 / 10 * f.viewx) (f.camy - 1 / 10 * f.viewy)).1
          (1 / 10) (1 / 10) f.viewx f.viewy
        camx := f.camx
        camy := f.camy } := by
  simp only [stepDown, h, if_true, sub_add_cancel]

/-! ## C3: the call that opens a door -/

/-- C3, counterexample: in `keyHeldFrame` the forward step proposes (3, 2.1), inside
the square of the closed door at (3,3) whose key is held and away from every
wall.  `collision` opens the door and returns `false`, so the frame loop keeps
the step: the camera ends at (3, 2.1), not at (3, 2) where it stood. -/
theorem door_opening_step_is_kept :
    keyHeldFrame.world.player.doors = [mkDoor 3 3 5 5 true false] ∧
      hitsDoor 3 (21 / 10) (mkDoor 3 3 5 5 true false) = true ∧
      wallLoop 3 (21 / 10) keyHeldFrame.world.walls = false ∧
      keyHeldFrame.camx + 1 / 10 * keyHeldFrame.viewx = 3 ∧
      keyHeldFrame.camy + 1 / 10 * keyHeldFrame.viewy = 21 / 10 ∧
      (collision keyHeldFrame.world 3 (21 / 10)).2 = false ∧
      (collision keyHeldFrame.world 3 (21 / 10)).1.player.doors
        = [mkDoor 3 3 5 5 true true] ∧
      (handleEvent zeroTrig zeroTrig keyHeldFrame Event.up).camy = 21 / 10 ∧
      keyHeldFrame.camy = 2 := by
  refine ⟨rfl, ?_, rfl, ?_, ?_, ?_, ?_, ?_, rfl⟩
  · norm_num [hitsDoor, mkDoor, abs_lt]
  · norm_num [keyHeldFrame, initFrame]
  · norm_num [keyHeldFrame, initFrame]
  · norm_num [collision, keyHeldFrame, initFrame, keyHeldWorld, mkWorld, mkDoor, wallLoop,
      doorLoop, hitsDoor, abs_lt]
  · norm_num [collision, keyHeldFrame, initFrame, keyHeldWorld, mkWorld, mkDoor, wallLoop,
      doorLoop, hitsDoor, abs_lt]
  · norm_num [handleEvent, syncGoal, stepUp, collision, keyHeldFrame, initFrame, keyHeldWorld,
      mkWorld, mkDoor, wallLoop, doorLoop, hitsDoor, abs_lt]

/-- C3, amended: let `D` be a closed door whose key is held, the candidate lie in its
1.0 square and outside every wall's square, and no closed door precede `D` in
the list with the candidate in range.  Then `collision` sets `open` on `D`,
changes nothing else and returns `false`; the forward or backward step of the
frame loop that proposed this candidate is kept, the camera ends at the
candidate. -/
theorem door_with_key_opens_and_step_is_kept (s : World) (x y : ℚ) (i : ℕ) (D : Door)
    (hD : s.player.doors[i]? = some D) (hclosed : D.isOpen = false)
    (hkey : D.have_key = true)
    (hx : |x - (D.doorx : ℚ)| < 1) (hy : |y - (D.doory : ℚ)| < 1)
    (hwall : outsideWalls s.walls x y)
    (hpre : ∀ j d, j < i → s.player.doors[j]? = some d → d.isOpen = false →
      ¬ (|x - (d.doorx : ℚ)| < 1 ∧ |y - (d.doory : ℚ)| < 1)) :
    collision s x y =
        ({ s with player :=
            { s.player with doors := s.player.doors.set i { D with isOpen := true } } },
          false) ∧
      (∀ (sin cos : ℚ → ℚ) (f : Frame), (syncGoal f).world = s →
        (syncGoal f).camx + 1 / 10 * (syncGoal f).viewx = x →
        (syncGoal f).camy + 1 / 10 * (syncGoal f).viewy = y →
        (handleEvent sin cos f Event.up).camx = x ∧
          (handleEvent sin cos f Event.up).camy = y ∧
          (handleEvent sin cos f Event.up).world = (collision s x y).1) ∧
      (∀ (sin cos : ℚ → ℚ) (f : Frame), (syncGoal f).world = s →
        (syncGoal f).camx - 1 / 10 * (syncGoal f).viewx = x →
        (syncGoal f).camy - 1 / 10 * (syncGoal f).viewy = y →
        (handleEvent sin cos f Event.down).camx = x ∧
          (handleEvent sin cos f Event.down).camy = y ∧
          (handleEvent sin cos f Event.down).world = (collision s x y).1) := by
  have hd := doorLoop_opens_at x y s.player.doors i D hD hclosed hkey
    ((hitsDoor_iff x y D).mpr ⟨hx, hy⟩)
    (fun j d hj hd ho => by
      have := hpre j d hj hd ho
      rw [← hitsDoor_iff] at this
      simpa using this)
  have hc := collision_of_door s x y false _ ((wallLoop_eq_false_iff x y s.walls).mpr hwall) hd
  refine ⟨hc, ?_, ?_⟩
  · intro sin cos f hs hcx hcy
    have hacc : (collision (syncGoal f).world ((syncGoal f).camx + 1 / 10 * (syncGoal f).viewx)
        ((syncGoal f).camy + 1 / 10 * (syncGoal f).viewy)).2 = false := by
      rw [hs, hcx, hcy, hc]
    rw [handleEvent_up, stepUp_of_accept _ hacc]
    simp only [hs, hcx, hcy, and_self]
  · intro sin cos f hs hcx hcy
    have hacc : (collision (syncGoal f).world ((syncGoal f).camx - 1 / 10 * (syncGoal f).viewx)
        ((syncGoal f).camy - 1 / 10 * (syncGoal f).viewy)).2 = false := by
      rw [hs, hcx, hcy, hc]
    rw [handleEvent_down, stepDown_of_accept _ hacc]
    simp only [hs, hcx, hcy, and_self]

/-- Witness for C3 (amended): the door of `keyHeldWorld` and the candidate (3, 2.1). -/
theorem door_with_key_opens_and_step_is_kept_witness :
    collision keyHeldWorld 3 (21 / 10)
      = ({ keyHeldWorld with player :=
            { keyHeldWorld.player with
              doors := keyHeldWorld.player.doors.set 0
                { mkDoor 3 3 5 5 true false with isOpen := true } } }, false) :=
  (door_with_key_opens_and_step_is_kept keyHeldWorld 3 (21 / 10) 0 (mkDoor 3 3 5 5 true false)
    (by simp [keyHeldWorld, mkWorld]) rfl rfl
    (by norm_num [mkDoor, abs_lt]) (by norm_num [mkDoor, abs_lt])
    (by simp [outsideWalls, keyHeldWorld, mkWorld])
    (fun j _ hj => absurd hj (Nat.not_lt_zero j))).1

/-! ## What one call of `collision` does to the world -/

theorem collision_walls (s : World) (x y : ℚ) : (collision s x y).1.walls = s.walls := by
  unfold collision
  split_ifs <;> try rfl
  all_goals split <;> try rfl

theorem collision_goalpos (s : World) (x y : ℚ) :
    (collision s x y).1.player.goalx = s.player.goalx ∧
      (collision s x y).1.player.goaly = s.player.goaly := by
  unfold collision
  split_ifs <;> try exact ⟨rfl, rfl⟩
  all_goals split <;> try exact ⟨rfl, rfl⟩

theorem collision_start (s : World) (x y : ℚ) :
    (collision s x y).1.player.startx = s.player.startx ∧
      (collision s x y).1.player.starty = s.player.starty := by
  unfold collision
  split_ifs <;> try exact ⟨rfl, rfl⟩
  all_goals split <;> try exact ⟨rfl, rfl⟩

theorem pickKey_flagsKept (x y : ℚ) (d : Door) : FlagsKept d (pickKey x y d) := by
  unfold pickKey
  split_ifs
  · exact flagsKept_refl d
  · exact ⟨fun h => h, fun _ => rfl⟩
  · exact flagsKept_refl d

theorem performsReset_eq_true_iff (s : World) (x y : ℚ) :
    performsReset s x y = true ↔
      wallLoop x y s.walls = false ∧ doorLoop x y s.player.doors = none ∧
        near x y s.player.goalx s.player.goaly = true := by
  simp [performsReset, and_assoc]

/-- Without the goal reset, a call of `collision` keeps every flag that was set. -/
theorem collision_flagsKept (s : World) (x y : ℚ) (h : performsReset s x y = false) :
    List.Forall₂ FlagsKept s.player.doors (collision s x y).1.player.doors := by
  by_cases hw : wallLoop x y s.walls = true
  · rw [collision_of_wall s x y hw]
    exact forall₂_self flagsKept_refl _
  · have hw2 : wallLoop x y s.walls = false := by simpa using hw
    cases hd : doorLoop x y s.player.doors with
    | some p =>
      obtain ⟨res, ds⟩ := p
      rw [collision_of_door s x y res ds hw2 hd]
      exact doorLoop_flagsKept x y _ res ds hd
    | none =>
      have hg : near x y s.player.goalx s.player.goaly = false := by
        by_contra hg
        have : performsReset s x y = true :=
          (performsReset_eq_true_iff s x y).mpr ⟨hw2, hd, by simpa using hg⟩
        rw [h] at this
        exact Bool.false_ne_true this
      rw [collision_of_clear s x y hw2 hd hg]
      exact forall₂_map_right _ (pickKey_flagsKept x y) _

/-- With the goal reset, every door comes out with both flags cleared. -/
theorem collision_reset_flags (s : World) (x y : ℚ) (h : performsReset s x y = true) :
    ∀ d ∈ (collision s x y).1.player.doors, d.isOpen = false ∧ d.have_key = false := by
  obtain ⟨hw, hd, hg⟩ := (performsReset_eq_true_iff s x y).mp h
  rw [collision_of_goal s x y hw hd hg]
  intro d hd
  simp only [List.map_map, List.mem_map, Function.comp_apply] at hd
  obtain ⟨e, _, rfl⟩ := hd
  exact ⟨rfl, rfl⟩

/-! ## C4: an open door is passable -/

/-- C4: let door `D` hold its key and a first call of `collision` at a candidate in
its 1.0 square leave `D` open.  If the candidate is outside every wall's square,
not in range of any other closed door and not within 0.5 of the goal, a second
call at the same candidate returns `false` and `D` still has `have_key` and
`open` set. -/
theorem open_door_is_passable (s : World) (x y : ℚ) (i : ℕ) (D : Door)
    (hD : s.player.doors[i]? = some D) (hkey : D.have_key = true)
    (_hx : |x - (D.doorx : ℚ)| < 1) (_hy : |y - (D.doory : ℚ)| < 1)
    (hopened : ∃ D1, (collision s x y).1.player.doors[i]? = some D1 ∧ D1.isOpen = true)
    (hwall : outsideWalls s.walls x y)
    (hother : ∀ j d, j ≠ i → (collision s x y).1.player.doors[j]? = some d →
      d.isOpen = false → ¬ (|x - (d.doorx : ℚ)| < 1 ∧ |y - (d.doory : ℚ)| < 1))
    (hgoal : near x y s.player.goalx s.player.goaly = false) :
    (collision (collision s x y).1 x y).2 = false ∧
      ∃ D2, (collision (collision s x y).1 x y).1.player.doors[i]? = some D2 ∧
        D2.have_key = true ∧ D2.isOpen = true := by
  obtain ⟨D1, hD1, hopen1⟩ := hopened
  -- the first call did not reset, so `D` kept its key
  have hnr : performsReset s x y = false := by
    by_contra hr
    have hr2 : performsReset s x y = true := by simpa using hr
    have := (collision_reset_flags s x y hr2 D1 (List.getElem?_mem hD1)).1
    rw [hopen1] at this
    exact Bool.noConfusion this
  obtain ⟨D1b, hD1b, hkept⟩ := forall₂_getElem? (collision_flagsKept s x y hnr) i D hD
  have hEq : D1b = D1 := by
    rw [hD1] at hD1b
    exact (Option.some.inj hD1b).symm
  subst hEq
  have hkey1 : D1b.have_key = true := hkept.2 hkey
  -- the second call runs through to the key loop
  have hw1 : wallLoop x y (collision s x y).1.walls = false := by
    rw [collision_walls]
    exact (wallLoop_eq_false_iff x y s.walls).mpr hwall
  have hd1 : doorLoop x y (collision s x y).1.player.doors = none := by
    rw [doorLoop_eq_none_iff_hits]
    intro d hd hclosed
    obtain ⟨j, hj⟩ := List.mem_iff_getElem?.mp hd
    by_cases hji : j = i
    · subst hji
      rw [hD1] at hj
      have := Option.some.inj hj
      subst this
      rw [hopen1] at hclosed
      exact Bool.noConfusion hclosed
    · have := hother j d hji hj hclosed
      rw [← hitsDoor_iff] at this
      simpa using this
  have hg1 : near x y (collision s x y).1.player.goalx (collision s x y).1.player.goaly
      = false := by
    rw [(collision_goalpos s x y).1, (collision_goalpos s x y).2]
    exact hgoal
  rw [collision_of_clear _ x y hw1 hd1 hg1]
  refine ⟨rfl, pickKey x y D1b, ?_, ?_, ?_⟩
  · simp [hD1]
  · simp [pickKey, hkey1]
  · simp [pickKey, hkey1, hopen1]

/-- Witness for C4: the door of `keyHeldWorld` approached twice at (3,3). -/
theorem open_door_is_passable_witness :
    (collision (collision keyHeldWorld 3 3).1 3 3).2 = false ∧
      ∃ D2, (collision (collision keyHeldWorld 3 3).1 3 3).1.player.doors[0]? = some D2 ∧
        D2.have_key = true ∧ D2.isOpen = true :=
  have hfirst : (collision keyHeldWorld 3 3).1.player.doors = [mkDoor 3 3 5 5 true true] := by
    norm_num [collision, keyHeldWorld, mkWorld, mkDoor, wallLoop, doorLoop, hitsDoor, abs_lt]
  open_door_is_passable keyHeldWorld 3 3 0 (mkDoor 3 3 5 5 true false)
    (by simp [keyHeldWorld, mkWorld]) rfl
    (by norm_num [mkDoor, abs_lt]) (by norm_num [mkDoor, abs_lt])
    ⟨mkDoor 3 3 5 5 true true, by rw [hfirst]; rfl, rfl⟩
    (by simp [outsideWalls, keyHeldWorld, mkWorld])
    (fun j d hj hd => by
      rw [hfirst] at hd
      cases j with
      | zero => exact absurd rfl hj
      | succ n => simp at hd)
    (by norm_num [near, keyHeldWorld, mkWorld])

/-! ## C5: picking up keys -/

/-- C5, counterexample: in `keyBehindDoorWorld` the candidate (3, 2.2) hits no wall,
is away from the goal and `collision` returns `false`, so no rule rejected it;
the key of the second door lies within 0.5, but that door's `have_key` is still
`false` afterwards, because opening the first door ended the call. -/
theorem key_left_behind_when_door_opens :
    wallLoop 3 (11 / 5) keyBehindDoorWorld.walls = false ∧
      (collision keyBehindDoorWorld 3 (11 / 5)).2 = false ∧
      near 3 (11 / 5) keyBehindDoorWorld.player.goalx keyBehindDoorWorld.player.goaly = false ∧
      keyBehindDoorWorld.player.doors[1]? = some (mkDoor 7 7 3 2 false false) ∧
      near 3 (11 / 5) (mkDoor 7 7 3 2 false false).keyx (mkDoor 7 7 3 2 false false).keyy = true ∧
      (collision keyBehindDoorWorld 3 (11 / 5)).1.player.doors[1]?
        = some (mkDoor 7 7 3 2 false false) := by
  refine ⟨rfl, ?_, ?_, rfl, ?_, ?_⟩
  · norm_num [collision, keyBehindDoorWorld, mkWorld, mkDoor, wallLoop, doorLoop, hitsDoor,
      abs_lt]
  · norm_num [near, keyBehindDoorWorld, mkWorld]
  · norm_num [near, mkDoor]
  · norm_num [collision, keyBehindDoorWorld, mkWorld, mkDoor, wallLoop, doorLoop, hitsDoor,
      abs_lt]

/-- C5, amended: when the candidate is outside every wall's square, in range of no
closed door and not within 0.5 of the goal, `collision` returns `false`, every
door whose key was not held and lies within 0.5 of the candidate has `have_key`
afterwards (all of them in the one call), and every other door's `have_key` is
what it was. -/
theorem keys_in_reach_are_picked_up (s : World) (x y : ℚ)
    (hwall : outsideWalls s.walls x y)
    (hdoor : noClosedDoorInRange s.player.doors x y)
    (hgoal : near x y s.player.goalx s.player.goaly = false) :
    (collision s x y).2 = false ∧
      ∀ (i : ℕ) (D : Door), s.player.doors[i]? = some D →
        ∃ D2 : Door, (collision s x y).1.player.doors[i]? = some D2 ∧
          (D.have_key = false → near x y D.keyx D.keyy = true → D2.have_key = true) ∧
          (¬ (D.have_key = false ∧ near x y D.keyx D.keyy = true) →
            D2.have_key = D.have_key) := by
  rw [collision_of_clear s x y ((wallLoop_eq_false_iff x y s.walls).mpr hwall)
    ((doorLoop_eq_none_iff x y s.player.doors).mpr hdoor) hgoal]
  refine ⟨rfl, fun i D hD => ⟨pickKey x y D, by simp [hD], ?_, ?_⟩⟩
  · intro hk hn
    simp [pickKey, hk, hn]
  · intro hnot
    unfold pickKey
    split_ifs with h1 h2
    · rfl
    · exact absurd ⟨by simpa using h1, h2⟩ hnot
    · rfl

/-- Witness for C5 (amended): at (4, 4.1) both keys of `twoKeyWorld` are within 0.5
and both doors get `have_key` in the same call. -/
theorem keys_in_reach_are_picked_up_witness :
    (collision twoKeyWorld 4 (41 / 10)).2 = false ∧
      (collision twoKeyWorld 4 (41 / 10)).1.player.doors
        = [mkDoor 8 8 4 4 true false, mkDoor 8 1 4 (21 / 5) true false] :=
  ⟨(keys_in_reach_are_picked_up twoKeyWorld 4 (41 / 10)
      (by simp [outsideWalls, twoKeyWorld, mkWorld])
      (by
        intro d hd _
        simp only [twoKeyWorld, mkWorld, List.mem_cons, List.mem_singleton,
          List.not_mem_nil, or_false] at hd
        rcases hd with rfl | rfl <;> norm_num [mkDoor, abs_lt])
      (by norm_num [near, twoKeyWorld, mkWorld])).1,
    by norm_num [collision, twoKeyWorld, mkWorld, mkDoor, wallLoop, doorLoop, hitsDoor, abs_lt,
      near, pickKey]⟩

/-! ## C6: reaching the goal -/

/-- C6, counterexample: in `goalByWallWorld` the candidate (1, 1.3) is within 0.5 of
the goal at (1,1) but also in the square of the wall at (1,2).  `collision`
returns `true` and leaves the world as it was: the goal flag stays clear and the
door keeps `open` and `have_key`. -/
theorem goal_in_wall_square_does_not_reset :
    near 1 (13 / 10) goalByWallWorld.player.goalx goalByWallWorld.player.goaly = true ∧
      collision goalByWallWorld 1 (13 / 10) = (goalByWallWorld, true) ∧
      goalByWallWorld.player.goal = false ∧
      goalByWallWorld.player.doors = [mkDoor 5 5 6 6 true true] := by
  refine ⟨?_, ?_, rfl, rfl⟩
  · norm_num [near, goalByWallWorld, mkWorld]
  · norm_num [collision, goalByWallWorld, mkWorld, wallLoop, hitsWall, abs_lt]

/-- C6, amended: when the candidate is within 0.5 of the goal, outside every wall's
square and in range of no closed door, then after `collision` every door has
`open` and `have_key` cleared (whatever they were), the door list is as long as
before, the goal flag is set, the stored player position is the level start,
and the call returns `false`. -/
theorem goal_resets_level (s : World) (x y : ℚ)
    (hwall : outsideWalls s.walls x y)
    (hdoor : noClosedDoorInRange s.player.doors x y)
    (hgoal : near x y s.player.goalx s.player.goaly = true) :
    (∀ d ∈ (collision s x y).1.player.doors, d.isOpen = false ∧ d.have_key = false) ∧
      (collision s x y).1.player.doors.length = s.player.doors.length ∧
      (collision s x y).1.player.goal = true ∧
      (collision s x y).1.player.Playerx = s.player.startx ∧
      (collision s x y).1.player.Playery = s.player.starty ∧
      (collision s x y).2 = false := by
  have hw := (wallLoop_eq_false_iff x y s.walls).mpr hwall
  have hd := (doorLoop_eq_none_iff x y s.player.doors).mpr hdoor
  refine ⟨collision_reset_flags s x y ((performsReset_eq_true_iff s x y).mpr ⟨hw, hd, hgoal⟩),
    ?_⟩
  rw [collision_of_goal s x y hw hd hgoal]
  simp

/-- Witness for C6 (amended): `goalByWallWorld` entered at (1, 0.8), away from the
wall; the door that was open with its key held comes out closed and keyless. -/
theorem goal_resets_level_witness :
    (collision goalByWallWorld 1 (4 / 5)).1.player.goal = true ∧
      ∀ d ∈ (collision goalByWallWorld 1 (4 / 5)).1.player.doors,
        d.isOpen = false ∧ d.have_key = false :=
  have h := goal_resets_level goalByWallWorld 1 (4 / 5)
    (by
      intro w hw
      simp only [goalByWallWorld, mkWorld, List.mem_singleton] at hw
      subst hw
      norm_num [abs_lt])
    (by
      intro d hd ho
      simp only [goalByWallWorld, mkWorld, List.mem_singleton] at hd
      subst hd
      simp [mkDoor] at ho)
    (by norm_num [near, goalByWallWorld, mkWorld])
  ⟨h.2.2.1, h.1⟩

/-! ## C7: flags never revert without a reset -/

theorem setKeyz_flags (k : ℕ) (d : Door) :
    (setKeyz k d).isOpen = d.isOpen ∧ (setKeyz k d).have_key = d.have_key := by
  unfold setKeyz
  split_ifs <;> exact ⟨rfl, rfl⟩

theorem move_keyLoop_flags (x y viewx viewy : ℚ) (k : ℕ) (ds : List Door) :
    List.Forall₂ (fun d d2 => d2.isOpen = d.isOpen ∧ d2.have_key = d.have_key) ds
      (move_keyLoop x y viewx viewy k ds) := by
  induction ds generalizing k with
  | nil => exact List.Forall₂.nil
  | cons d ds ih =>
    unfold move_keyLoop
    split_ifs
    · exact List.Forall₂.cons (setKeyz_flags k _) (ih (k + 1))
    · exact List.Forall₂.cons ⟨rfl, rfl⟩ (ih k)

/-- C7: for every door (taken by its place `i` in the list), a call of `collision`
that does not run the goal reset keeps `open` if it was set and keeps `have_key`
if it was set; a call of `move_key` leaves both flags exactly as they were. -/
theorem flags_kept_without_reset (s : World) (x y : ℚ) (i : ℕ) (D : Door)
    (hreset : performsReset s x y = false) (hD : s.player.doors[i]? = some D) :
    (∃ D2 : Door, (collision s x y).1.player.doors[i]? = some D2 ∧
        (D.isOpen = true → D2.isOpen = true) ∧ (D.have_key = true → D2.have_key = true)) ∧
      ∀ a b viewx viewy : ℚ,
        ∃ D3 : Door, (move_key s a b viewx viewy).player.doors[i]? = some D3 ∧
          D3.isOpen = D.isOpen ∧ D3.have_key = D.have_key := by
  constructor
  · obtain ⟨D2, h2, hk⟩ := forall₂_getElem? (collision_flagsKept s x y hreset) i D hD
    exact ⟨D2, h2, hk.1, hk.2⟩
  · intro a b viewx viewy
    exact forall₂_getElem? (move_keyLoop_flags a b viewx viewy 0 s.player.doors) i D hD

/-- Witness for C7: the door of `keyHeldWorld` at the candidate (3,3), which opens
it. -/
theorem flags_kept_without_reset_witness :
    ∃ D2 : Door, (collision keyHeldWorld 3 3).1.player.doors[0]? = some D2 ∧
      ((mkDoor 3 3 5 5 true false).isOpen = true → D2.isOpen = true) ∧
      ((mkDoor 3 3 5 5 true false).have_key = true → D2.have_key = true) :=
  (flags_kept_without_reset keyHeldWorld 3 3 0 (mkDoor 3 3 5 5 true false)
    (by norm_num [performsReset, keyHeldWorld, mkWorld, mkDoor, wallLoop, doorLoop, hitsDoor,
      abs_lt, near])
    (by simp [keyHeldWorld, mkWorld])).1

/-! ## C8 and C9: the jump arc -/

/-- C8, counterexample: at t = 10 the arc is exactly 0, which is not below 0, so
`jump` writes height 0 and returns `true`: the jump is still active, not
finished. -/
theorem jump_at_ten_is_not_finished : jump 10 = (0, true) ∧ jump 10 ≠ (0, false) := by
  have h : jump 10 = (0, true) := by norm_num [jump]
  exact ⟨h, by rw [h]; simp⟩

/-- C8, amended: `jump 0` writes height 0 and returns `true` (active), and `jump 10`
writes height 0 and returns `true` as well. -/
theorem jump_boundary_values : jump 0 = (0, true) ∧ jump 10 = (0, true) := by
  constructor <;> norm_num [jump]

/-- C9: for 0 < t < 10 `jump` writes the strictly positive height t - 0.1 t^2 and
returns `true`; for t > 10 it writes 0 and returns `false`; the written height
is never negative. -/
theorem jump_arc (t : ℚ) :
    (0 < t → t < 10 → jump t = (t - 1 / 10 * t ^ 2, true) ∧ 0 < (jump t).1) ∧
      (10 < t → jump t = (0, false)) ∧
      0 ≤ (jump t).1 := by
  refine ⟨fun h0 h10 => ?_, fun h10 => ?_, ?_⟩
  · have hz : 0 < t - 1 / 10 * t * t := by nlinarith
    have hj : jump t = (t - 1 / 10 * t ^ 2, true) := by
      unfold jump
      simp only [not_lt.mpr hz.le, if_false]
      congr 1
      ring
    rw [hj]
    exact ⟨rfl, by simp only; nlinarith⟩
  · have hz : t - 1 / 10 * t * t < 0 := by nlinarith
    unfold jump
    simp only [hz, if_true]
  · unfold jump
    simp only
    split_ifs with h
    · exact le_refl _
    · exact not_lt.mp h

/-- Witness for C9: the top of the arc at t = 5 and a late call at t = 11. -/
theorem jump_arc_witness :
    (jump 5 = (5 - 1 / 10 * 5 ^ 2, true) ∧ 0 < (jump 5).1) ∧ jump 11 = (0, false) :=
  ⟨(jump_arc 5).1 (by norm_num) (by norm_num), (jump_arc 11).2.1 (by norm_num)⟩

/-! ## C10: rejected steps and walls -/

theorem collision_accept_outside (s : World) (x y : ℚ) (h : (collision s x y).2 = false) :
    outsideWalls s.walls x y := by
  rw [← wallLoop_eq_false_iff]
  by_contra hw
  rw [collision_of_wall s x y (by simpa using hw)] at h
  exact Bool.noConfusion h

/-- After a call of `collision` the goal flag and the stored player position are
either what they were, or the flag is set and the position is the level start. -/
theorem collision_player_cases (s : World) (x y : ℚ) :
    ((collision s x y).1.player.goal = s.player.goal ∧
        (collision s x y).1.player.Playerx = s.player.Playerx ∧
        (collision s x y).1.player.Playery = s.player.Playery) ∨
      ((collision s x y).1.player.goal = true ∧
        (collision s x y).1.player.Playerx = s.player.startx ∧
        (collision s x y).1.player.Playery = s.player.starty) := by
  by_cases hw : wallLoop x y s.walls = true
  · rw [collision_of_wall s x y hw]
    exact Or.inl ⟨rfl, rfl, rfl⟩
  · have hw2 : wallLoop x y s.walls = false := by simpa using hw
    cases hd : doorLoop x y s.player.doors with
    | some p =>
      rw [collision_of_door s x y p.1 p.2 hw2 hd]
      exact Or.inl ⟨rfl, rfl, rfl⟩
    | none =>
      cases hg : near x y s.player.goalx s.player.goaly with
      | true =>
        rw [collision_of_goal s x y hw2 hd hg]
        exact Or.inr ⟨rfl, rfl, rfl⟩
      | false =>
        rw [collision_of_clear s x y hw2 hd hg]
        exact Or.inl ⟨rfl, rfl, rfl⟩

theorem cameraClear_syncGoal (f : Frame) (h : CameraClear f) : CameraClear (syncGoal f) := by
  unfold syncGoal
  split_ifs with hg
  · exact ⟨h.2.2 hg, h.2.1, fun hh => Bool.noConfusion hh⟩
  · exact h

/-- A frame that differs from a clear one only outside the camera position, the
walls, the start, the goal flag and the stored player position is clear. -/
theorem cameraClear_congr (f g : Frame) (h : CameraClear f)
    (hx : g.camx = f.camx) (hy : g.camy = f.camy) (hw : g.world.walls = f.world.walls)
    (hsx : g.world.player.startx = f.world.player.startx)
    (hsy : g.world.player.starty = f.world.player.starty)
    (hg : g.world.player.goal = f.world.player.goal)
    (hpx : g.world.player.Playerx = f.world.player.Playerx)
    (hpy : g.world.player.Playery = f.world.player.Playery) : CameraClear g := by
  unfold CameraClear
  rw [hx, hy, hw, hsx, hsy, hg, hpx, hpy]
  exact h

/-- An accepted or rejected step at candidate `(x, y)`: the frame that results keeps
the camera clear of the walls. -/
theorem cameraClear_after_collision (f g : Frame) (x y : ℚ) (h : CameraClear f)
    (hw : g.world.walls = f.world.walls)
    (hsx : g.world.player.startx = f.world.player.startx)
    (hsy : g.world.player.starty = f.world.player.starty)
    (hg : g.world.player.goal = (collision f.world x y).1.player.goal)
    (hpx : g.world.player.Playerx = (collision f.world x y).1.player.Playerx)
    (hpy : g.world.player.Playery = (collision f.world x y).1.player.Playery)
    (hcam : (g.camx = f.camx ∧ g.camy = f.camy) ∨
      ((collision f.world x y).2 = false ∧ g.camx = x ∧ g.camy = y)) :
    CameraClear g := by
  unfold CameraClear
  rw [hw, hsx, hsy, hg, hpx, hpy]
  refine ⟨?_, h.2.1, ?_⟩
  · rcases hcam with ⟨hx, hy⟩ | ⟨hacc, hx, hy⟩
    · rw [hx, hy]
      exact h.1
    · rw [hx, hy]
      exact collision_accept_outside f.world x y hacc
  · rcases collision_player_cases f.world x y with ⟨h1, h2, h3⟩ | ⟨_, h2, h3⟩
    · rw [h1, h2, h3]
      exact h.2.2
    · rw [h2, h3]
      exact fun _ => h.2.1

theorem move_key_player (s : World) (a b viewx viewy : ℚ) :
    (move_key s a b viewx viewy).walls = s.walls ∧
      (move_key s a b viewx viewy).player.startx = s.player.startx ∧
      (move_key s a b viewx viewy).player.starty = s.player.starty ∧
      (move_key s a b viewx viewy).player.goal = s.player.goal ∧
      (move_key s a b viewx viewy).player.Playerx = s.player.Playerx ∧
      (move_key s a b viewx viewy).player.Playery = s.player.Playery :=
  ⟨rfl, rfl, rfl, rfl, rfl, rfl⟩

theorem cameraClear_stepUp (f : Frame) (h : CameraClear f) : CameraClear (stepUp f) := by
  cases hc : (collision f.world (f.camx + 1 / 10 * f.viewx) (f.camy + 1 / 10 * f.viewy)).2 with
  | true =>
    rw [stepUp_of_reject f hc]
    exact cameraClear_after_collision f _ _ _ h (collision_walls _ _ _)
      (collision_start _ _ _).1 (collision_start _ _ _).2 rfl rfl rfl (Or.inl ⟨rfl, rfl⟩)
  | false =>
    rw [stepUp_of_accept f hc]
    exact cameraClear_after_collision f _ _ _ h (collision_walls _ _ _)
      (collision_start _ _ _).1 (collision_start _ _ _).2 rfl rfl rfl (Or.inr ⟨hc, rfl, rfl⟩)

theorem cameraClear_stepDown (f : Frame) (h : CameraClear f) : CameraClear (stepDown f) := by
  cases hc : (collision f.world (f.camx - 1 / 10 * f.viewx) (f.camy - 1 / 10 * f.viewy)).2 with
  | true =>
    rw [stepDown_of_reject f hc]
    exact cameraClear_after_collision f _ _ _ h (collision_walls _ _ _)
      (collision_start _ _ _).1 (collision_start _ _ _).2 rfl rfl rfl (Or.inl ⟨rfl, rfl⟩)
  | false =>
    rw [stepDown_of_accept f hc]
    exact cameraClear_after_collision f _ _ _ h (collision_walls _ _ _)
      (collision_start _ _ _).1 (collision_start _ _ _).2 rfl rfl rfl (Or.inr ⟨hc, rfl, rfl⟩)

theorem cameraClear_handleEvent (sin cos : ℚ → ℚ) (f : Frame) (e : Event)
    (h : CameraClear f) : CameraClear (handleEvent sin cos f e) := by
  have hs := cameraClear_syncGoal f h
  cases e with
  | up => exact cameraClear_stepUp _ hs
  | down => exact cameraClear_stepDown _ hs
  | _ => exact cameraClear_congr (syncGoal f) _ hs rfl rfl rfl rfl rfl rfl rfl rfl

theorem cameraClear_foldl (sin cos : ℚ → ℚ) (events : List Event) (f : Frame)
    (h : CameraClear f) : CameraClear (events.foldl (handleEvent sin cos) f) := by
  induction events generalizing f with
  | nil => exact h
  | cons e es ih => exact ih _ (cameraClear_handleEvent sin cos f e h)

theorem foldl_handleEvent_walls (sin cos : ℚ → ℚ) (events : List Event) (f : Frame) :
    (events.foldl (handleEvent sin cos) f).world.walls = f.world.walls := by
  induction events generalizing f with
  | nil => rfl
  | cons e es ih =>
    rw [List.foldl_cons, ih]
    have hsync : (syncGoal f).world.walls = f.world.walls := by
      unfold syncGoal
      split_ifs <;> rfl
    cases e with
    | up =>
      rw [handleEvent_up, ← hsync]
      cases hc : (collision (syncGoal f).world
          ((syncGoal f).camx + 1 / 10 * (syncGoal f).viewx)
          ((syncGoal f).camy + 1 / 10 * (syncGoal f).viewy)).2 with
      | true => rw [stepUp_of_reject _ hc]; exact collision_walls _ _ _
      | false => rw [stepUp_of_accept _ hc]; exact collision_walls _ _ _
    | down =>
      rw [handleEvent_down, ← hsync]
      cases hc : (collision (syncGoal f).world
          ((syncGoal f).camx - 1 / 10 * (syncGoal f).viewx)
          ((syncGoal f).camy - 1 / 10 * (syncGoal f).viewy)).2 with
      | true => rw [stepDown_of_reject _ hc]; exact collision_walls _ _ _
      | false => rw [stepDown_of_accept _ hc]; exact collision_walls _ _ _
    | _ => exact hsync

/-- Two different integers are at least 1 apart, so not within 0.75. -/
theorem int_ne_not_near (a b : ℤ) (h : a ≠ b) : ¬ (|(a : ℚ) - (b : ℚ)| < 3 / 4) := by
  intro hlt
  have h1 : (1 : ℤ) ≤ |a - b| := Int.one_le_abs (sub_ne_zero.mpr h)
  have h2 : ((1 : ℤ) : ℚ) ≤ ((|a - b| : ℤ) : ℚ) := by exact_mod_cast h1
  have h3 : ((|a - b| : ℤ) : ℚ) = |(a : ℚ) - (b : ℚ)| := by push_cast; rfl
  rw [h3] at h2
  norm_num at h2
  linarith

/-- A level start on a grid cell that is not a wall tile is outside every wall's
square. -/
theorem startOnFreeTile_outside (w : World) (h : StartOnFreeTile w) :
    outsideWalls w.walls w.player.startx w.player.starty := by
  obtain ⟨hx, hy, hmem, _, _⟩ := h
  intro wl hwl hnear
  have hne : wl ≠ (⟨w.player.startx.num, w.player.starty.num⟩ : Wall) :=
    fun heq => hmem (heq ▸ hwl)
  have hxy : w.player.startx.num ≠ wl.x ∨ w.player.starty.num ≠ wl.y := by
    by_contra hcon
    push_neg at hcon
    apply hne
    cases wl
    simp only [Wall.mk.injEq]
    exact ⟨hcon.1.symm, hcon.2.symm⟩
  rw [← Rat.coe_int_num_of_den_eq_one hx, ← Rat.coe_int_num_of_den_eq_one hy] at hnear
  rcases hxy with h1 | h1
  · exact int_ne_not_near _ _ h1 hnear.1
  · exact int_ne_not_near _ _ h1 hnear.2

theorem cameraClear_of_startOnFreeTile (f : Frame) (h : StartOnFreeTile f.world)
    (hcam : outsideWalls f.world.walls f.camx f.camy) : CameraClear f := by
  have hs := startOnFreeTile_outside f.world h
  refine ⟨hcam, hs, fun _ => ?_⟩
  rw [h.2.2.2.1, h.2.2.2.2]
  exact hs

/-- C10: (1) when `collision` rejects the candidate of a forward or backward step,
the camera position after the event is the one the step started from (the
position after the `if (player.goal)` block, which is the position before the
event whenever no goal flag is pending).  (2) In a world as the loader builds
it (level start on a grid cell that is not a wall tile), starting from a camera
position outside every wall's square, after any sequence of events (move
steps, rotations or others) the walls are the same and the camera is outside
every wall's square; this holds in particular for every sequence of events
from the initial frame, where the camera is at the level start. -/
theorem rejected_step_restores_camera (sin cos : ℚ → ℚ) (f : Frame) :
    ((collision (syncGoal f).world ((syncGoal f).camx + 1 / 10 * (syncGoal f).viewx)
          ((syncGoal f).camy + 1 / 10 * (syncGoal f).viewy)).2 = true →
        (handleEvent sin cos f Event.up).camx = (syncGoal f).camx ∧
          (handleEvent sin cos f Event.up).camy = (syncGoal f).camy) ∧
      ((collision (syncGoal f).world ((syncGoal f).camx - 1 / 10 * (syncGoal f).viewx)
          ((syncGoal f).camy - 1 / 10 * (syncGoal f).viewy)).2 = true →
        (handleEvent sin cos f Event.down).camx = (syncGoal f).camx ∧
          (handleEvent sin cos f Event.down).camy = (syncGoal f).camy) ∧
      (f.world.player.goal = false → syncGoal f = f) ∧
      (StartOnFreeTile f.world → outsideWalls f.world.walls f.camx f.camy →
        ∀ events : List Event,
          (events.foldl (handleEvent sin cos) f).world.walls = f.world.walls ∧
            outsideWalls f.world.walls (events.foldl (handleEvent sin cos) f).camx
              (events.foldl (handleEvent sin cos) f).camy) ∧
      (∀ w : World, StartOnFreeTile w → ∀ events : List Event,
        (events.foldl (handleEvent sin cos) (initFrame w)).world.walls = w.walls ∧
          outsideWalls w.walls (events.foldl (handleEvent sin cos) (initFrame w)).camx
            (events.foldl (handleEvent sin cos) (initFrame w)).camy) := by
  have hrun : ∀ g : Frame, StartOnFreeTile g.world → outsideWalls g.world.walls g.camx g.camy →
      ∀ events : List Event,
        (events.foldl (handleEvent sin cos) g).world.walls = g.world.walls ∧
          outsideWalls g.world.walls (events.foldl (handleEvent sin cos) g).camx
            (events.foldl (handleEvent sin cos) g).camy := by
    intro g hg hcam events
    have hclear := cameraClear_foldl sin cos events g (cameraClear_of_startOnFreeTile g hg hcam)
    refine ⟨foldl_handleEvent_walls sin cos events g, ?_⟩
    rw [← foldl_handleEvent_walls sin cos events g]
    exact hclear.1
  refine ⟨fun h => ?_, fun h => ?_, fun h => ?_, hrun f, fun w hw events => ?_⟩
  · rw [handleEvent_up, stepUp_of_reject _ h]
    exact ⟨rfl, rfl⟩
  · rw [handleEvent_down, stepDown_of_reject _ h]
    exact ⟨rfl, rfl⟩
  · simp [syncGoal, h]
  · refine hrun (initFrame w) hw ?_ events
    have hs := startOnFreeTile_outside w hw
    rw [← hw.2.2.2.1, ← hw.2.2.2.2] at hs
    exact hs

/-- Witness for C10: in `wallAheadFrame` the forward step from (2, 1.2) proposes
(2, 1.3), inside the square of the wall at (2,2); it is rejected and the camera
is back at (2, 1.2).  In `corridorWorld` the player walks from the level start
(2,0) straight at the wall at (2,2), fifteen up keys; steps are accepted up to
(2, 1.2) and rejected from then on, and the camera ends outside the wall's
square. -/
theorem rejected_step_restores_camera_witness :
    ((handleEvent zeroTrig zeroTrig wallAheadFrame Event.up).camx = (syncGoal wallAheadFrame).camx ∧
        (handleEvent zeroTrig zeroTrig wallAheadFrame Event.up).camy
          = (syncGoal wallAheadFrame).camy) ∧
      ((([Event.left, Event.right] ++ List.replicate 15 Event.up).foldl
            (handleEvent zeroTrig oneTrig) (initFrame corridorWorld)).world.walls
          = corridorWorld.walls ∧
        outsideWalls corridorWorld.walls
          (([Event.left, Event.right] ++ List.replicate 15 Event.up).foldl
            (handleEvent zeroTrig oneTrig) (initFrame corridorWorld)).camx
          (([Event.left, Event.right] ++ List.replicate 15 Event.up).foldl
            (handleEvent zeroTrig oneTrig) (initFrame corridorWorld)).camy) :=
  ⟨(rejected_step_restores_camera zeroTrig zeroTrig wallAheadFrame).1
      (by norm_num [syncGoal, wallAheadFrame, initFrame, mkWorld, collision, wallLoop, hitsWall,
        abs_lt]),
    (rejected_step_restores_camera zeroTrig oneTrig (initFrame corridorWorld)).2.2.2.2
      corridorWorld
      (by
        refine ⟨rfl, rfl, ?_, rfl, rfl⟩
        simp [corridorWorld, mkWorld])
      ([Event.left, Event.right] ++ List.replicate 15 Event.up)⟩

/-! ## C11: the draw order -/

theorem flatMap_range_getElem? {α : Type} (g : ℕ → List α) (h : ℕ)
    (hlen : ∀ i, (g i).length = h) (w : ℕ) :
    ((List.range w).flatMap g).length = w * h ∧
      ∀ i j, i < w → j < h → ((List.range w).flatMap g)[i * h + j]? = (g i)[j]? := by
  induction w with
  | zero => exact ⟨by simp, fun i j hi => absurd hi (Nat.not_lt_zero i)⟩
  | succ n ih =>
    obtain ⟨ihlen, ihget⟩ := ih
    have hl : ((List.range (n + 1)).flatMap g).length = (n + 1) * h := by
      rw [List.range_succ, List.flatMap_append, List.length_append, ihlen,
        List.flatMap_singleton, hlen]
      ring
    refine ⟨hl, fun i j hi hj => ?_⟩
    rw [List.range_succ, List.flatMap_append, List.flatMap_singleton]
    by_cases hin : i < n
    · have hlt : i * h + j < ((List.range n).flatMap g).length := by
        rw [ihlen]
        calc i * h + j < i * h + h := by omega
          _ = (i + 1) * h := by ring
          _ ≤ n * h := Nat.mul_le_mul_right h hin
      rw [List.getElem?_append_left hlt]
      exact ihget i j hin hj
    · have hi2 : i = n := by omega
      subst hi2
      rw [List.getElem?_append_right (by rw [ihlen]; omega), ihlen]
      congr 1
      omega

theorem drawDoors_eq_flatMap (doors : List Door) :
    drawDoors doors = doors.flatMap fun d =>
      (if d.have_key = false then [keyInstr d] else []) ++
        (if d.isOpen = false then [doorInstr d] else []) := by
  induction doors with
  | nil => rfl
  | cons d ds ih =>
    rw [drawDoors, ih, List.flatMap_cons]
    cases d.have_key <;> cases d.isOpen <;> simp

theorem drawDoors_length (doors : List Door) :
    (drawDoors doors).length =
      doors.countP (fun d => d.have_key = false) + doors.countP (fun d => d.isOpen = false) := by
  induction doors with
  | nil => rfl
  | cons d ds ih =>
    rw [drawDoors, List.length_append, List.length_append, ih, List.countP_cons, List.countP_cons]
    cases d.have_key <;> cases d.isOpen <;> simp <;> omega

/-- C11: the draw calls of one frame are: one wall call per wall in stored order, then
the floor calls, one per cell (i, j) with 0 <= i < width and 0 <= j < height, the
call for (i, j) standing at place i * height + j among them (i is the outer
loop), then for each door in list order a key call exactly when `have_key` is
false followed by a door call exactly when `open` is false, then one goal call,
last.  The number of calls is |walls| + width * height + #(doors with `have_key`
false) + #(doors with `open` false) + 1. -/
theorem drawFrame_order (f : Frame) :
    drawFrame f =
        f.world.walls.map (wallInstr f.colR f.colG f.colB) ++
          (drawFloors f.colR f.colG f.colB f.world.width f.world.height ++
            ((f.world.player.doors.flatMap fun d =>
                (if d.have_key = false then [keyInstr d] else []) ++
                  (if d.isOpen = false then [doorInstr d] else [])) ++
              [goalInstr f.colR f.colG f.colB f.world.player])) ∧
      (drawFloors f.colR f.colG f.colB f.world.width f.world.height).length
        = f.world.width.toNat * f.world.height.toNat ∧
      (∀ i j : ℕ, i < f.world.width.toNat → j < f.world.height.toNat →
        (drawFloors f.colR f.colG f.colB f.world.width f.world.height)[
            i * f.world.height.toNat + j]?
          = some (floorInstr f.colR f.colG f.colB i j)) ∧
      (drawFrame f).length =
        f.world.walls.length + f.world.width.toNat * f.world.height.toNat +
          f.world.player.doors.countP (fun d => d.have_key = false) +
          f.world.player.doors.countP (fun d => d.isOpen = false) + 1 ∧
      (0 ≤ f.world.width → 0 ≤ f.world.height →
        ((drawFrame f).length : ℤ) =
          f.world.walls.length + f.world.width * f.world.height +
            f.world.player.doors.countP (fun d => d.have_key = false) +
            f.world.player.doors.countP (fun d => d.isOpen = false) + 1) := by
  have hfl := flatMap_range_getElem?
    (fun i => (List.range f.world.height.toNat).map fun j => floorInstr f.colR f.colG f.colB i j)
    f.world.height.toNat (fun i => by simp) f.world.width.toNat
  have hlen : (drawFrame f).length =
      f.world.walls.length + f.world.width.toNat * f.world.height.toNat +
        f.world.player.doors.countP (fun d => d.have_key = false) +
        f.world.player.doors.countP (fun d => d.isOpen = false) + 1 := by
    unfold drawFrame drawWalls
    rw [List.length_append, List.length_append, List.length_append, List.length_map,
      drawDoors_length]
    unfold drawFloors
    rw [hfl.1, List.length_singleton]
    omega
  refine ⟨?_, hfl.1, ?_, hlen, ?_⟩
  · unfold drawFrame drawWalls
    rw [drawDoors_eq_flatMap]
  · intro i j hi hj
    unfold drawFloors
    rw [hfl.2 i j hi hj]
    simp [hj]
  · intro hw hh
    rw [hlen]
    push_cast
    rw [Int.toNat_of_nonneg hw, Int.toNat_of_nonneg hh]

/-- Witness for C11: the frame of `smallWorld` (2 x 3 grid, one wall, one closed door
without key) issues 1 + 6 + 2 + 1 = 10 calls; the floor call for cell (1, 2) is
the sixth floor call. -/
theorem drawFrame_order_witness :
    (drawFloors 1 1 1 2 3)[1 * 3 + 2]? = some (floorInstr 1 1 1 1 2) ∧
      ((drawFrame (initFrame smallWorld)).length : ℤ) = 1 + 2 * 3 + 1 + 1 + 1 :=
  ⟨(drawFrame_order (initFrame smallWorld)).2.2.1 1 2 (by decide) (by decide),
    (drawFrame_order (initFrame smallWorld)).2.2.2.2 (by decide) (by decide)⟩

/-! ## Relations kept by every write to the door list -/

theorem forall₂_trans {α : Type} {R : α → α → Prop} (htrans : ∀ a b c, R a b → R b c → R a c)
    {l1 l2 l3 : List α} (h12 : List.Forall₂ R l1 l2) (h23 : List.Forall₂ R l2 l3) :
    List.Forall₂ R l1 l3 := by
  induction h12 generalizing l3 with
  | nil => cases h23; exact List.Forall₂.nil
  | cons hab _ ih =>
    cases h23 with
    | cons hbc hrest => exact List.Forall₂.cons (htrans _ _ _ hab hbc) (ih hrest)

theorem doorLoop_forall₂ (R : Door → Door → Prop) (hrefl : ∀ d, R d d)
    (hopen : ∀ d, d.isOpen = false → d.have_key = true → R d { d with isOpen := true })
    (x y : ℚ) (ds : List Door) (res : Bool) (ds2 : List Door)
    (h : doorLoop x y ds = some (res, ds2)) : List.Forall₂ R ds ds2 := by
  induction ds generalizing ds2 with
  | nil => simp [doorLoop] at h
  | cons d ds ih =>
    have hrec : Option.map (fun r : Bool × List Door => (r.1, d :: r.2)) (doorLoop x y ds)
        = some (res, ds2) → List.Forall₂ R (d :: ds) ds2 := by
      intro hm
      cases hd : doorLoop x y ds with
      | none => simp [hd] at hm
      | some p =>
        obtain ⟨b, t⟩ := p
        simp only [hd, Option.map_some', Option.some.injEq, Prod.mk.injEq] at hm
        obtain ⟨rfl, rfl⟩ := hm
        exact List.Forall₂.cons (hrefl d) (ih t (by rw [hd]))
    unfold doorLoop at h
    split_ifs at h with ho hr hk
    · exact hrec h
    · simp only [Option.some.injEq, Prod.mk.injEq] at h
      obtain ⟨_, rfl⟩ := h
      exact List.Forall₂.cons (hopen d (by simpa using ho) hk) (forall₂_self hrefl ds)
    · simp only [Option.some.injEq, Prod.mk.injEq] at h
      obtain ⟨_, rfl⟩ := h
      exact forall₂_self hrefl _
    · exact hrec h

/-- Whatever relation holds between a door and itself, the door with `open` set, the
door after the key loop, and the door after the key loop and the reset, holds
between the door lists before and after `collision`. -/
theorem collision_forall₂ (R : Door → Door → Prop) (s : World) (x y : ℚ)
    (hrefl : ∀ d, R d d)
    (hopen : ∀ d, d.isOpen = false → d.have_key = true → R d { d with isOpen := true })
    (hpick : ∀ d, R d (pickKey x y d))
    (hreset : ∀ d, R d (resetDoor (pickKey x y d))) :
    List.Forall₂ R s.player.doors (collision s x y).1.player.doors := by
  by_cases hw : wallLoop x y s.walls = true
  · rw [collision_of_wall s x y hw]
    exact forall₂_self hrefl _
  · have hw2 : wallLoop x y s.walls = false := by simpa using hw
    cases hd : doorLoop x y s.player.doors with
    | some p =>
      rw [collision_of_door s x y p.1 p.2 hw2 hd]
      exact doorLoop_forall₂ R hrefl hopen x y _ p.1 p.2 hd
    | none =>
      cases hg : near x y s.player.goalx s.player.goaly with
      | true =>
        rw [collision_of_goal s x y hw2 hd hg]
        simp only [List.map_map]
        exact forall₂_map_right _ hreset _
      | false =>
        rw [collision_of_clear s x y hw2 hd hg]
        exact forall₂_map_right _ hpick _

theorem move_keyLoop_forall₂ (R : Door → Door → Prop) (hrefl : ∀ d, R d d)
    (x y viewx viewy : ℚ)
    (hmove : ∀ k d, d.have_key = true →
      R d (setKeyz k { d with keyx := d.keyx + x * viewx, keyy := d.keyy + y * viewy }))
    (k : ℕ) (ds : List Door) :
    List.Forall₂ R ds (move_keyLoop x y viewx viewy k ds) := by
  induction ds generalizing k with
  | nil => exact List.Forall₂.nil
  | cons d ds ih =>
    unfold move_keyLoop
    split_ifs with hk
    · exact List.Forall₂.cons (hmove k d hk) (ih (k + 1))
    · exact List.Forall₂.cons (hrefl d) (ih k)

theorem doorLoop_blocked_eq (x y : ℚ) (ds ds2 : List Door)
    (h : doorLoop x y ds = some (true, ds2)) : ds2 = ds := by
  induction ds generalizing ds2 with
  | nil => simp [doorLoop] at h
  | cons d ds ih =>
    have hrec : Option.map (fun r : Bool × List Door => (r.1, d :: r.2)) (doorLoop x y ds)
        = some (true, ds2) → ds2 = d :: ds := by
      intro hm
      cases hd : doorLoop x y ds with
      | none => simp [hd] at hm
      | some p =>
        obtain ⟨b, t⟩ := p
        simp only [hd, Option.map_some', Option.some.injEq, Prod.mk.injEq] at hm
        obtain ⟨rfl, rfl⟩ := hm
        rw [ih t hd]
    unfold doorLoop at h
    split_ifs at h with ho hr hk
    · exact hrec h
    · simp at h
    · simp only [Option.some.injEq, Prod.mk.injEq, true_and] at h
      exact h.symm
    · exact hrec h

theorem collision_reject_state (s : World) (x y : ℚ) (h : (collision s x y).2 = true) :
    (collision s x y).1 = s := by
  by_cases hw : wallLoop x y s.walls = true
  · rw [collision_of_wall s x y hw]
  · have hw2 : wallLoop x y s.walls = false := by simpa using hw
    cases hd : doorLoop x y s.player.doors with
    | some p =>
      obtain ⟨res, ds⟩ := p
      rw [collision_of_door s x y res ds hw2 hd] at h ⊢
      simp only at h
      subst h
      rw [doorLoop_blocked_eq x y _ ds hd]
    | none =>
      cases hg : near x y s.player.goalx s.player.goaly with
      | true => rw [collision_of_goal s x y hw2 hd hg] at h; exact Bool.noConfusion h
      | false => rw [collision_of_clear s x y hw2 hd hg] at h; exact Bool.noConfusion h

theorem syncGoal_doors (f : Frame) :
    (syncGoal f).world.player.doors = f.world.player.doors := by
  unfold syncGoal
  split_ifs <;> rfl

/-- A relation that every `collision` call and every `move_key` call keeps between
the door lists is kept by the handling of any event. -/
theorem handleEvent_forall₂ (R : Door → Door → Prop) (hrefl : ∀ d, R d d)
    (hcoll : ∀ (s : World) (x y : ℚ),
      List.Forall₂ R s.player.doors (collision s x y).1.player.doors)
    (hmove : ∀ (a b viewx viewy : ℚ) (ds : List Door),
      List.Forall₂ R ds (move_keyLoop a b viewx viewy 0 ds))
    (sin cos : ℚ → ℚ) (f : Frame) (e : Event) :
    List.Forall₂ R f.world.player.doors (handleEvent sin cos f e).world.player.doors := by
  rw [← syncGoal_doors f]
  cases e with
  | up =>
    rw [handleEvent_up]
    cases hc : (collision (syncGoal f).world ((syncGoal f).camx + 1 / 10 * (syncGoal f).viewx)
        ((syncGoal f).camy + 1 / 10 * (syncGoal f).viewy)).2 with
    | true =>
      rw [stepUp_of_reject _ hc, collision_reject_state _ _ _ hc]
      exact hmove _ _ _ _ _
    | false =>
      rw [stepUp_of_accept _ hc]
      exact hcoll _ _ _
  | down =>
    rw [handleEvent_down]
    cases hc : (collision (syncGoal f).world ((syncGoal f).camx - 1 / 10 * (syncGoal f).viewx)
        ((syncGoal f).camy - 1 / 10 * (syncGoal f).viewy)).2 with
    | true =>
      rw [stepDown_of_reject _ hc, collision_reject_state _ _ _ hc]
      exact hmove _ _ _ _ _
    | false =>
      rw [stepDown_of_accept _ hc]
      exact hcoll _ _ _
  | _ => exact forall₂_self hrefl _

theorem advanceJump_world (f : Frame) : (advanceJump f).world = f.world := by
  unfold advanceJump
  split_ifs <;> rfl

/-- The same for whole iterations of the outer loop, when the relation is
transitive. -/
theorem runFrames_forall₂ (R : Door → Door → Prop) (hrefl : ∀ d, R d d)
    (htrans : ∀ a b c, R a b → R b c → R a c)
    (hcoll : ∀ (s : World) (x y : ℚ),
      List.Forall₂ R s.player.doors (collision s x y).1.player.doors)
    (hmove : ∀ (a b viewx viewy : ℚ) (ds : List Door),
      List.Forall₂ R ds (move_keyLoop a b viewx viewy 0 ds))
    (sin cos : ℚ → ℚ) (queues : List (List Event)) (f : Frame) :
    List.Forall₂ R f.world.player.doors (runFrames sin cos f queues).world.player.doors := by
  have hevents : ∀ (es : List Event) (g : Frame),
      List.Forall₂ R g.world.player.doors (es.foldl (handleEvent sin cos) g).world.player.doors := by
    intro es
    induction es with
    | nil => intro g; exact forall₂_self hrefl _
    | cons e es ih =>
      intro g
      exact forall₂_trans htrans (handleEvent_forall₂ R hrefl hcoll hmove sin cos g e) (ih _)
  induction queues generalizing f with
  | nil => exact forall₂_self hrefl _
  | cons q qs ih =>
    have h1 : List.Forall₂ R f.world.player.doors (frameIter sin cos f q).world.player.doors := by
      unfold frameIter
      have := hevents q (advanceJump f)
      rwa [advanceJump_world] at this
    exact forall₂_trans htrans h1 (ih _)

theorem sameDoorAndColour_collision (s : World) (x y : ℚ) :
    List.Forall₂ SameDoorAndColour s.player.doors (collision s x y).1.player.doors := by
  refine collision_forall₂ SameDoorAndColour s x y (fun d => ⟨rfl, rfl, rfl, rfl, rfl⟩)
    (fun d _ _ => ⟨rfl, rfl, rfl, rfl, rfl⟩) (fun d => ?_) (fun d => ?_)
  · unfold pickKey
    split_ifs <;> exact ⟨rfl, rfl, rfl, rfl, rfl⟩
  · unfold pickKey
    split_ifs <;> exact ⟨rfl, rfl, rfl, rfl, rfl⟩

theorem sameDoorAndColour_move_key (a b viewx viewy : ℚ) (ds : List Door) :
    List.Forall₂ SameDoorAndColour ds (move_keyLoop a b viewx viewy 0 ds) := by
  refine move_keyLoop_forall₂ SameDoorAndColour (fun d => ⟨rfl, rfl, rfl, rfl, rfl⟩)
    a b viewx viewy (fun k d _ => ?_) 0 ds
  unfold setKeyz
  split_ifs <;> exact ⟨rfl, rfl, rfl, rfl, rfl⟩

theorem sameKeyPos_collision (s : World) (x y : ℚ) :
    List.Forall₂ SameKeyPos s.player.doors (collision s x y).1.player.doors := by
  refine collision_forall₂ SameKeyPos s x y (fun d => ⟨rfl, rfl, rfl⟩)
    (fun d _ _ => ⟨rfl, rfl, rfl⟩) (fun d => ?_) (fun d => ?_)
  · unfold pickKey
    split_ifs <;> exact ⟨rfl, rfl, rfl⟩
  · unfold pickKey
    split_ifs <;> exact ⟨rfl, rfl, rfl⟩

/-! ## C12: which door fields change -/

/-- The walk of `corridorWorld` after twelve up keys: the camera is at (2, 1.2), every
step was accepted, the key at (2,1) was picked up on the way and its record
still says (2,1). -/
theorem corridorWalk_twelve :
    corridorWalk 12 =
      { initFrame { corridorWorld with player := { corridorWorld.player with
            doors := [mkDoor 7 7 2 1 true false] } } with
        camx := 2, camy := 6 / 5, viewx := 0, viewy := 1 } := by
  norm_num [corridorWalk, List.replicate, handleEvent, syncGoal, stepUp, collision, move_key,
    move_keyLoop, setKeyz, initFrame, corridorWorld, mkWorld, mkDoor, wallLoop, hitsWall,
    doorLoop, hitsDoor, pickKey, near, abs_lt, zeroTrig, oneTrig, PI]

/-- C12, the code at the failing input: in `corridorWorld` the player turns left and
back right and presses the up key thirteen times.  After twelve of them the
camera is at (2, 1.2) and the key loaded at (2,1) is held, its record unchanged.
The thirteenth step proposes (2, 1.3), which the wall at (2,2) rejects; `main`
undoes the step and calls `move_key(-0.1, -0.1, viewx, viewy)`, and the door
record's `keyy` is 0.9 afterwards, no longer the value 1 it was loaded with. -/
theorem held_key_moves_on_rejected_step :
    (initFrame corridorWorld).world.player.doors = [mkDoor 7 7 2 1 false false] ∧
      (corridorWalk 12).camx = 2 ∧ (corridorWalk 12).camy = 6 / 5 ∧
      (corridorWalk 12).world.player.doors = [mkDoor 7 7 2 1 true false] ∧
      (collision (corridorWalk 12).world 2 (13 / 10)).2 = true ∧
      handleEvent zeroTrig oneTrig (corridorWalk 12) Event.up
        = { corridorWalk 12 with
            world := { (corridorWalk 12).world with
              player := { (corridorWalk 12).world.player with
                doors := [{ mkDoor 7 7 2 1 true false with keyy := 9 / 10 }] } } } := by
  rw [corridorWalk_twelve]
  refine ⟨rfl, rfl, rfl, rfl, ?_, ?_⟩
  · norm_num [collision, initFrame, corridorWorld, mkWorld, wallLoop, hitsWall, abs_lt]
  · norm_num [handleEvent, syncGoal, stepUp, collision, move_key, move_keyLoop, setKeyz,
      initFrame, corridorWorld, mkWorld, mkDoor, wallLoop, hitsWall, abs_lt]

/-- The part of the door record that does stay fixed: over every run of the frame
loop (any events in any frames, steps accepted or rejected, jumps) each door
keeps its place in the list, its door position and its colour.  The key
position is never changed by `collision`, and the handling of an event leaves
it as it was for every door whose key is not held when the event arrives. -/
theorem door_position_and_colour_fixed (sin cos : ℚ → ℚ) (f : Frame) (i : ℕ) (D : Door)
    (hD : f.world.player.doors[i]? = some D) :
    (∀ queues : List (List Event),
        ∃ D2 : Door, (runFrames sin cos f queues).world.player.doors[i]? = some D2 ∧
          D2.doorx = D.doorx ∧ D2.doory = D.doory ∧ D2.r = D.r ∧ D2.g = D.g ∧ D2.b = D.b) ∧
      (∀ x y : ℚ,
        ∃ D3 : Door, (collision f.world x y).1.player.doors[i]? = some D3 ∧
          D3.keyx = D.keyx ∧ D3.keyy = D.keyy ∧ D3.keyz = D.keyz) ∧
      (D.have_key = false → ∀ e : Event,
        ∃ D4 : Door, (handleEvent sin cos f e).world.player.doors[i]? = some D4 ∧
          D4.keyx = D.keyx ∧ D4.keyy = D.keyy ∧ D4.keyz = D.keyz) := by
  refine ⟨fun queues => ?_, fun x y => ?_, fun hk e => ?_⟩
  · have h := runFrames_forall₂ SameDoorAndColour (fun d => ⟨rfl, rfl, rfl, rfl, rfl⟩)
      (fun a b c h1 h2 => ⟨h2.1.trans h1.1, h2.2.1.trans h1.2.1, h2.2.2.1.trans h1.2.2.1,
        h2.2.2.2.1.trans h1.2.2.2.1, h2.2.2.2.2.trans h1.2.2.2.2⟩)
      sameDoorAndColour_collision sameDoorAndColour_move_key sin cos queues f
    obtain ⟨D2, h2, hr⟩ := forall₂_getElem? h i D hD
    exact ⟨D2, h2, hr⟩
  · obtain ⟨D3, h3, hr⟩ := forall₂_getElem? (sameKeyPos_collision f.world x y) i D hD
    exact ⟨D3, h3, hr⟩
  · have h := handleEvent_forall₂ (fun d d2 => d.have_key = false → SameKeyPos d d2)
      (fun d _ => ⟨rfl, rfl, rfl⟩)
      (fun s x y => List.Forall₂.imp (fun d d2 (h : SameKeyPos d d2) (_ : d.have_key = false) => h)
        (sameKeyPos_collision s x y))
      (fun a b viewx viewy ds => move_keyLoop_forall₂ _ (fun d _ => ⟨rfl, rfl, rfl⟩)
        a b viewx viewy (fun k d hh hf => by rw [hh] at hf; exact Bool.noConfusion hf) 0 ds)
      sin cos f e
    obtain ⟨D4, h4, hr⟩ := forall₂_getElem? h i D hD
    exact ⟨D4, h4, hr hk⟩

/-! ## C13: when the camera returns to the start -/

theorem collision_of_reset (s : World) (x y : ℚ) (h : performsReset s x y = true) :
    (collision s x y).2 = false ∧ (collision s x y).1.player.goal = true ∧
      (collision s x y).1.player.Playerx = s.player.startx ∧
      (collision s x y).1.player.Playery = s.player.starty := by
  obtain ⟨hw, hd, hg⟩ := (performsReset_eq_true_iff s x y).mp h
  rw [collision_of_goal s x y hw hd hg]
  exact ⟨rfl, rfl, rfl, rfl⟩

theorem syncGoal_start (f : Frame) :
    (syncGoal f).world.player.startx = f.world.player.startx ∧
      (syncGoal f).world.player.starty = f.world.player.starty := by
  unfold syncGoal
  split_ifs <;> exact ⟨rfl, rfl⟩

theorem syncGoal_of_goal (f : Frame) (h : f.world.player.goal = true) :
    (syncGoal f).camx = f.world.player.Playerx ∧ (syncGoal f).camy = f.world.player.Playery := by
  simp [syncGoal, h]

theorem handleEvent_cam_of_not_move (sin cos : ℚ → ℚ) (f : Frame) (e : Event)
    (hup : e ≠ Event.up) (hdown : e ≠ Event.down) :
    (handleEvent sin cos f e).camx = (syncGoal f).camx ∧
      (handleEvent sin cos f e).camy = (syncGoal f).camy := by
  cases e with
  | up => exact absurd rfl hup
  | down => exact absurd rfl hdown
  | _ => exact ⟨rfl, rfl⟩

/-- What a forward step that runs the goal reset leaves behind, and what the next
event then finds. -/
theorem stepUp_of_reset (f : Frame)
    (h : performsReset f.world (f.camx + 1 / 10 * f.viewx) (f.camy + 1 / 10 * f.viewy) = true) :
    (stepUp f).camx = f.camx + 1 / 10 * f.viewx ∧ (stepUp f).camy = f.camy + 1 / 10 * f.viewy ∧
      (stepUp f).world.player.goal = true ∧
      (stepUp f).world.player.Playerx = f.world.player.startx ∧
      (stepUp f).world.player.Playery = f.world.player.starty := by
  obtain ⟨h1, h2, h3, h4⟩ := collision_of_reset _ _ _ h
  rw [stepUp_of_accept f h1]
  exact ⟨rfl, rfl, h2, h3, h4⟩

theorem stepDown_of_reset (f : Frame)
    (h : performsReset f.world (f.camx - 1 / 10 * f.viewx) (f.camy - 1 / 10 * f.viewy) = true) :
    (stepDown f).camx = f.camx - 1 / 10 * f.viewx ∧
      (stepDown f).camy = f.camy - 1 / 10 * f.viewy ∧
      (stepDown f).world.player.goal = true ∧
      (stepDown f).world.player.Playerx = f.world.player.startx ∧
      (stepDown f).world.player.Playery = f.world.player.starty := by
  obtain ⟨h1, h2, h3, h4⟩ := collision_of_reset _ _ _ h
  rw [stepDown_of_accept f h1]
  exact ⟨rfl, rfl, h2, h3, h4⟩

/-- C13, counterexample: in `goalAheadFrame` the forward step proposes (5, 4.6), within
0.5 of the goal at (5,5); `collision` accepts it.  When the frame that polled
only this event is drawn, the camera is at (5, 4.6), not at the level start
(0,0); only the stored player position is the start. -/
theorem camera_not_at_start_when_frame_is_drawn :
    near 5 (23 / 5) goalAheadFrame.world.player.goalx goalAheadFrame.world.player.goaly = true ∧
      (collision goalAheadFrame.world 5 (23 / 5)).2 = false ∧
      (frameIter zeroTrig zeroTrig goalAheadFrame [Event.up]).camx = 5 ∧
      (frameIter zeroTrig zeroTrig goalAheadFrame [Event.up]).camy = 23 / 5 ∧
      (frameIter zeroTrig zeroTrig goalAheadFrame [Event.up]).world.player.startx = 0 ∧
      (frameIter zeroTrig zeroTrig goalAheadFrame [Event.up]).world.player.starty = 0 ∧
      (frameIter zeroTrig zeroTrig goalAheadFrame [Event.up]).world.player.Playerx = 0 ∧
      (frameIter zeroTrig zeroTrig goalAheadFrame [Event.up]).world.player.Playery = 0 := by
  have hf : frameIter zeroTrig zeroTrig goalAheadFrame [Event.up] =
      { goalAheadFrame with
        world := { goalAheadFrame.world with
          player := { goalAheadFrame.world.player with goal := true } }
        camy := 23 / 5 } := by
    norm_num [frameIter, advanceJump, handleEvent, syncGoal, stepUp, collision, goalAheadFrame,
      initFrame, mkWorld, wallLoop, doorLoop, near]
  rw [hf]
  refine ⟨?_, ?_, rfl, rfl, rfl, rfl, rfl, rfl⟩
  · norm_num [near, goalAheadFrame, initFrame, mkWorld]
  · norm_num [collision, goalAheadFrame, initFrame, mkWorld, wallLoop, doorLoop, near]

/-- C13, amended: when the frame loop handles a forward or backward step whose
candidate runs the goal reset, the step is kept: after the event the camera is
at the candidate, the goal flag is set and the stored player position is the
level start.  The camera reaches the level start when the next event is
handled: after any further event that is not itself a move step the camera is
at the level start.  The frame is drawn from the state left by the last event
polled in it. -/
theorem goal_step_moves_camera_at_next_event (sin cos : ℚ → ℚ) (f : Frame) :
    (performsReset (syncGoal f).world ((syncGoal f).camx + 1 / 10 * (syncGoal f).viewx)
          ((syncGoal f).camy + 1 / 10 * (syncGoal f).viewy) = true →
        (handleEvent sin cos f Event.up).camx
            = (syncGoal f).camx + 1 / 10 * (syncGoal f).viewx ∧
          (handleEvent sin cos f Event.up).camy
            = (syncGoal f).camy + 1 / 10 * (syncGoal f).viewy ∧
          (handleEvent sin cos f Event.up).world.player.goal = true ∧
          (handleEvent sin cos f Event.up).world.player.Playerx = f.world.player.startx ∧
          (handleEvent sin cos f Event.up).world.player.Playery = f.world.player.starty ∧
          ∀ e : Event, e ≠ Event.up → e ≠ Event.down →
            (handleEvent sin cos (handleEvent sin cos f Event.up) e).camx
                = f.world.player.startx ∧
              (handleEvent sin cos (handleEvent sin cos f Event.up) e).camy
                = f.world.player.starty) ∧
      (performsReset (syncGoal f).world ((syncGoal f).camx - 1 / 10 * (syncGoal f).viewx)
          ((syncGoal f).camy - 1 / 10 * (syncGoal f).viewy) = true →
        (handleEvent sin cos f Event.down).camx
            = (syncGoal f).camx - 1 / 10 * (syncGoal f).viewx ∧
          (handleEvent sin cos f Event.down).camy
            = (syncGoal f).camy - 1 / 10 * (syncGoal f).viewy ∧
          (handleEvent sin cos f Event.down).world.player.goal = true ∧
          (handleEvent sin cos f Event.down).world.player.Playerx = f.world.player.startx ∧
          (handleEvent sin cos f Event.down).world.player.Playery = f.world.player.starty ∧
          ∀ e : Event, e ≠ Event.up → e ≠ Event.down →
            (handleEvent sin cos (handleEvent sin cos f Event.down) e).camx
                = f.world.player.startx ∧
              (handleEvent sin cos (handleEvent sin cos f Event.down) e).camy
                = f.world.player.starty) ∧
      (∀ (f0 : Frame) (events : List Event) (e : Event),
        frameIter sin cos f0 (events ++ [e])
          = handleEvent sin cos (frameIter sin cos f0 events) e) := by
  refine ⟨fun h => ?_, fun h => ?_, fun f0 events e => ?_⟩
  · obtain ⟨h1, h2, h3, h4, h5⟩ := stepUp_of_reset (syncGoal f) h
    rw [(syncGoal_start f).1] at h4
    rw [(syncGoal_start f).2] at h5
    rw [handleEvent_up]
    refine ⟨h1, h2, h3, h4, h5, fun e hup hdown => ?_⟩
    obtain ⟨hx, hy⟩ := handleEvent_cam_of_not_move sin cos (stepUp (syncGoal f)) e hup hdown
    obtain ⟨gx, gy⟩ := syncGoal_of_goal (stepUp (syncGoal f)) h3
    rw [hx, hy, gx, gy, h4, h5]
    exact ⟨rfl, rfl⟩
  · obtain ⟨h1, h2, h3, h4, h5⟩ := stepDown_of_reset (syncGoal f) h
    rw [(syncGoal_start f).1] at h4
    rw [(syncGoal_start f).2] at h5
    rw [handleEvent_down]
    refine ⟨h1, h2, h3, h4, h5, fun e hup hdown => ?_⟩
    obtain ⟨hx, hy⟩ := handleEvent_cam_of_not_move sin cos (stepDown (syncGoal f)) e hup hdown
    obtain ⟨gx, gy⟩ := syncGoal_of_goal (stepDown (syncGoal f)) h3
    rw [hx, hy, gx, gy, h4, h5]
    exact ⟨rfl, rfl⟩
  · unfold frameIter
    rw [List.foldl_append]
    rfl

/-- Witness for C13 (amended): the forward step of `goalAheadFrame`, followed by a
left rotation. -/
theorem goal_step_moves_camera_at_next_event_witness :
    (handleEvent zeroTrig zeroTrig goalAheadFrame Event.up).world.player.goal = true ∧
      (handleEvent zeroTrig zeroTrig
          (handleEvent zeroTrig zeroTrig goalAheadFrame Event.up) Event.left).camx
        = goalAheadFrame.world.player.startx :=
  have h := (goal_step_moves_camera_at_next_event zeroTrig zeroTrig goalAheadFrame).1
    (by norm_num [performsReset, syncGoal, goalAheadFrame, initFrame, mkWorld, wallLoop,
      doorLoop, near])
  ⟨h.2.2.1, (h.2.2.2.2.2 Event.left (by decide) (by decide)).1⟩

/-! ## C14: the heading before the first rotation -/

/-- C14, the code at the failing input: when the event loop is entered the heading
angle is 0 but the heading vector is (0,0), not a unit vector; a forward step
taken then leaves the camera where it is, whether or not it is accepted.  The
rotation handlers, in contrast, set the heading to (sin a, cos a) of the new
angle. -/
theorem initial_heading_is_zero (sin cos : ℚ → ℚ) (w : World) :
    (initFrame w).angel = 0 ∧ (initFrame w).viewx = 0 ∧ (initFrame w).viewy = 0 ∧
      (initFrame w).viewx ^ 2 + (initFrame w).viewy ^ 2 ≠ 1 ∧
      (handleEvent sin cos (initFrame w) Event.up).camx = (initFrame w).camx ∧
      (handleEvent sin cos (initFrame w) Event.up).camy = (initFrame w).camy ∧
      (∀ f : Frame,
        (handleEvent sin cos f Event.left).viewx
            = sin ((handleEvent sin cos f Event.left).angel * PI / 180) ∧
          (handleEvent sin cos f Event.left).viewy
            = cos ((handleEvent sin cos f Event.left).angel * PI / 180) ∧
          (handleEvent sin cos f Event.right).viewx
            = sin ((handleEvent sin cos f Event.right).angel * PI / 180) ∧
          (handleEvent sin cos f Event.right).viewy
            = cos ((handleEvent sin cos f Event.right).angel * PI / 180)) := by
  have hsx : (syncGoal (initFrame w)).camx = (initFrame w).camx := by
    unfold syncGoal
    split_ifs <;> rfl
  have hsy : (syncGoal (initFrame w)).camy = (initFrame w).camy := by
    unfold syncGoal
    split_ifs <;> rfl
  have hvx : (syncGoal (initFrame w)).viewx = 0 := by
    unfold syncGoal
    split_ifs <;> rfl
  have hvy : (syncGoal (initFrame w)).viewy = 0 := by
    unfold syncGoal
    split_ifs <;> rfl
  refine ⟨rfl, rfl, rfl, by norm_num [initFrame], ?_, ?_, fun f => ⟨rfl, rfl, rfl, rfl⟩⟩
  · rw [handleEvent_up, ← hsx]
    cases hc : (collision (syncGoal (initFrame w)).world
        ((syncGoal (initFrame w)).camx + 1 / 10 * (syncGoal (initFrame w)).viewx)
        ((syncGoal (initFrame w)).camy + 1 / 10 * (syncGoal (initFrame w)).viewy)).2 with
    | true => rw [stepUp_of_reject _ hc]
    | false =>
      rw [stepUp_of_accept _ hc]
      simp only [hvx, mul_zero, add_zero]
  · rw [handleEvent_up, ← hsy]
    cases hc : (collision (syncGoal (initFrame w)).world
        ((syncGoal (initFrame w)).camx + 1 / 10 * (syncGoal (initFrame w)).viewx)
        ((syncGoal (initFrame w)).camy + 1 / 10 * (syncGoal (initFrame w)).viewy)).2 with
    | true => rw [stepUp_of_reject _ hc]
    | false =>
      rw [stepUp_of_accept _ hc]
      simp only [hvy, mul_zero, add_zero]

/-! ## C15: the jump finishes -/

theorem jump_active_of_le (t : ℚ) (h0 : 0 ≤ t) (h10 : t ≤ 10) : (jump t).2 = true := by
  have hz : ¬ (t - 1 / 10 * t * t < 0) := by
    rw [not_lt]
    nlinarith
  simp only [jump, hz, if_false]

theorem jump_finished_of_gt (t : ℚ) (h10 : 10 < t) : jump t = (0, false) := by
  have hz : t - 1 / 10 * t * t < 0 := by nlinarith
  simp only [jump, hz, if_true]

theorem syncGoal_jump_fields (f : Frame) :
    (syncGoal f).jumping = f.jumping ∧ (syncGoal f).time = f.time ∧
      (syncGoal f).camz = f.camz := by
  unfold syncGoal
  split_ifs <;> exact ⟨rfl, rfl, rfl⟩

theorem stepUp_jump_fields (f : Frame) :
    (stepUp f).jumping = f.jumping ∧ (stepUp f).time = f.time ∧ (stepUp f).camz = f.camz := by
  cases hc : (collision f.world (f.camx + 1 / 10 * f.viewx) (f.camy + 1 / 10 * f.viewy)).2 with
  | true => rw [stepUp_of_reject f hc]; exact ⟨rfl, rfl, rfl⟩
  | false => rw [stepUp_of_accept f hc]; exact ⟨rfl, rfl, rfl⟩

theorem stepDown_jump_fields (f : Frame) :
    (stepDown f).jumping = f.jumping ∧ (stepDown f).time = f.time ∧
      (stepDown f).camz = f.camz := by
  cases hc : (collision f.world (f.camx - 1 / 10 * f.viewx) (f.camy - 1 / 10 * f.viewy)).2 with
  | true => rw [stepDown_of_reject f hc]; exact ⟨rfl, rfl, rfl⟩
  | false => rw [stepDown_of_accept f hc]; exact ⟨rfl, rfl, rfl⟩

theorem handleEvent_jump_fields (sin cos : ℚ → ℚ) (f : Frame) (e : Event)
    (he : e.leavesJump = true) :
    (handleEvent sin cos f e).jumping = f.jumping ∧ (handleEvent sin cos f e).time = f.time ∧
      (handleEvent sin cos f e).camz = f.camz := by
  obtain ⟨h1, h2, h3⟩ := syncGoal_jump_fields f
  cases e with
  | space => exact absurd he (by decide)
  | aDown => exact absurd he (by decide)
  | dDown => exact absurd he (by decide)
  | up =>
    obtain ⟨g1, g2, g3⟩ := stepUp_jump_fields (syncGoal f)
    rw [handleEvent_up, g1, g2, g3]
    exact ⟨h1, h2, h3⟩
  | down =>
    obtain ⟨g1, g2, g3⟩ := stepDown_jump_fields (syncGoal f)
    rw [handleEvent_down, g1, g2, g3]
    exact ⟨h1, h2, h3⟩
  | _ => exact ⟨h1, h2, h3⟩

theorem foldl_handleEvent_jump_fields (sin cos : ℚ → ℚ) (events : List Event) (f : Frame)
    (he : ∀ e ∈ events, e.leavesJump = true) :
    (events.foldl (handleEvent sin cos) f).jumping = f.jumping ∧
      (events.foldl (handleEvent sin cos) f).time = f.time ∧
      (events.foldl (handleEvent sin cos) f).camz = f.camz := by
  induction events generalizing f with
  | nil => exact ⟨rfl, rfl, rfl⟩
  | cons e es ih =>
    obtain ⟨h1, h2, h3⟩ := handleEvent_jump_fields sin cos f e (he e (List.mem_cons_self e es))
    obtain ⟨g1, g2, g3⟩ := ih (handleEvent sin cos f e)
      (fun a ha => he a (List.mem_cons_of_mem e ha))
    rw [List.foldl_cons, g1, g2, g3]
    exact ⟨h1, h2, h3⟩

theorem frameIter_jump_fields (sin cos : ℚ → ℚ) (f : Frame) (events : List Event)
    (he : ∀ e ∈ events, e.leavesJump = true) :
    (frameIter sin cos f events).jumping = (advanceJump f).jumping ∧
      (frameIter sin cos f events).time = (advanceJump f).time ∧
      (frameIter sin cos f events).camz = (advanceJump f).camz :=
  foldl_handleEvent_jump_fields sin cos events (advanceJump f) he

/-- Once the jump is over, frames without jump or height events leave the jump
state alone. -/
theorem runFrames_idle (sin cos : ℚ → ℚ) (queues : List (List Event)) (f : Frame)
    (hj : f.jumping = false)
    (hcalm : ∀ q ∈ queues, ∀ e ∈ q, e.leavesJump = true) :
    (runFrames sin cos f queues).jumping = false ∧
      (runFrames sin cos f queues).time = f.time ∧
      (runFrames sin cos f queues).camz = f.camz := by
  induction queues generalizing f with
  | nil => exact ⟨hj, rfl, rfl⟩
  | cons q qs ih =>
    obtain ⟨h1, h2, h3⟩ := frameIter_jump_fields sin cos f q (hcalm q (List.mem_cons_self q qs))
    have hadv : advanceJump f = f := by simp [advanceJump, hj]
    rw [hadv] at h1 h2 h3
    obtain ⟨g1, g2, g3⟩ := ih (frameIter sin cos f q) (h1.trans hj)
      (fun a ha => hcalm a (List.mem_cons_of_mem q ha))
    unfold runFrames at g1 g2 g3 ⊢
    rw [List.foldl_cons, g1, g2, g3]
    exact ⟨rfl, h2, h3⟩

/-- The jump state after some frames, started with the accumulator at `m / 10`. -/
theorem runFrames_jumping (sin cos : ℚ → ℚ) (queues : List (List Event)) (f : Frame) (m : ℕ)
    (hm : m ≤ 101) (hj : f.jumping = true) (ht : f.time = (m : ℚ) / 10)
    (hcalm : ∀ q ∈ queues, ∀ e ∈ q, e.leavesJump = true) :
    (m + queues.length ≤ 101 →
        (runFrames sin cos f queues).jumping = true ∧
          (runFrames sin cos f queues).time = ((m + queues.length : ℕ) : ℚ) / 10) ∧
      (102 ≤ m + queues.length →
        (runFrames sin cos f queues).jumping = false ∧
          (runFrames sin cos f queues).camz = 0 ∧
          (runFrames sin cos f queues).time = 102 / 10) := by
  induction queues generalizing f m with
  | nil =>
    refine ⟨fun _ => ⟨hj, by simpa using ht⟩, fun h => ?_⟩
    simp only [List.length_nil, Nat.add_zero] at h
    omega
  | cons q qs ih =>
    obtain ⟨h1, h2, h3⟩ := frameIter_jump_fields sin cos f q (hcalm q (List.mem_cons_self q qs))
    have hcalm2 : ∀ a ∈ qs, ∀ e ∈ a, e.leavesJump = true :=
      fun a ha => hcalm a (List.mem_cons_of_mem q ha)
    have hrun : runFrames sin cos f (q :: qs) = runFrames sin cos (frameIter sin cos f q) qs := rfl
    rw [hrun]
    have hlen : m + (q :: qs).length = (m + 1) + qs.length := by
      simp only [List.length_cons]
      omega
    rw [hlen]
    have hadv : (advanceJump f).jumping = (jump f.time).2 ∧
        (advanceJump f).camz = (jump f.time).1 ∧ (advanceJump f).time = f.time + 1 / 10 := by
      simp [advanceJump, hj]
    have htime : (frameIter sin cos f q).time = ((m + 1 : ℕ) : ℚ) / 10 := by
      rw [h2, hadv.2.2, ht]
      push_cast
      ring
    by_cases hm100 : m ≤ 100
    · have hact : (jump f.time).2 = true := by
        rw [ht]
        apply jump_active_of_le
        · positivity
        · have : (m : ℚ) ≤ 100 := by exact_mod_cast hm100
          linarith
      exact ih (frameIter sin cos f q) (m + 1) (by omega) (by rw [h1, hadv.1, hact]) htime hcalm2
    · have hm101 : m = 101 := by omega
      subst hm101
      have hfin : jump f.time = (0, false) := by
        rw [ht]
        apply jump_finished_of_gt
        norm_num
      have hj2 : (frameIter sin cos f q).jumping = false := by rw [h1, hadv.1, hfin]
      have hz2 : (frameIter sin cos f q).camz = 0 := by rw [h3, hadv.2.1, hfin]
      obtain ⟨g1, g2, g3⟩ := runFrames_idle sin cos qs (frameIter sin cos f q) hj2 hcalm2
      refine ⟨fun h => by omega, fun _ => ⟨g1, by rw [g3, hz2], ?_⟩⟩
      rw [g2, htime]
      norm_num

theorem handleEvent_clock (sin cos : ℚ → ℚ) (f : Frame) (e : Event) (he : e ≠ Event.space) :
    (handleEvent sin cos f e).jumping = f.jumping ∧ (handleEvent sin cos f e).time = f.time := by
  obtain ⟨h1, h2, _⟩ := syncGoal_jump_fields f
  cases e with
  | space => exact absurd rfl he
  | up =>
    obtain ⟨g1, g2, _⟩ := stepUp_jump_fields (syncGoal f)
    rw [handleEvent_up, g1, g2]
    exact ⟨h1, h2⟩
  | down =>
    obtain ⟨g1, g2, _⟩ := stepDown_jump_fields (syncGoal f)
    rw [handleEvent_down, g1, g2]
    exact ⟨h1, h2⟩
  | _ => exact ⟨h1, h2⟩

theorem frameIter_clock (sin cos : ℚ → ℚ) (events : List Event) (f : Frame)
    (he : ∀ e ∈ events, e ≠ Event.space) :
    (frameIter sin cos f events).jumping = (advanceJump f).jumping ∧
      (frameIter sin cos f events).time = (advanceJump f).time := by
  have hfold : ∀ (es : List Event) (g : Frame), (∀ e ∈ es, e ≠ Event.space) →
      (es.foldl (handleEvent sin cos) g).jumping = g.jumping ∧
        (es.foldl (handleEvent sin cos) g).time = g.time := by
    intro es
    induction es with
    | nil => exact fun g _ => ⟨rfl, rfl⟩
    | cons e es ih =>
      intro g hes
      obtain ⟨h1, h2⟩ := handleEvent_clock sin cos g e (hes e (List.mem_cons_self e es))
      obtain ⟨g1, g2⟩ := ih (handleEvent sin cos g e) (fun a ha => hes a (List.mem_cons_of_mem e ha))
      rw [List.foldl_cons, g1, g2]
      exact ⟨h1, h2⟩
  exact hfold events (advanceJump f) he

/-- Without a new trigger, a finished jump stays finished and the accumulator
stays where it is. -/
theorem runFrames_idle_clock (sin cos : ℚ → ℚ) (queues : List (List Event)) (f : Frame)
    (hj : f.jumping = false)
    (hquiet : ∀ q ∈ queues, ∀ e ∈ q, e ≠ Event.space) :
    (runFrames sin cos f queues).jumping = false ∧
      (runFrames sin cos f queues).time = f.time := by
  induction queues generalizing f with
  | nil => exact ⟨hj, rfl⟩
  | cons q qs ih =>
    obtain ⟨h1, h2⟩ := frameIter_clock sin cos q f (hquiet q (List.mem_cons_self q qs))
    have hadv : advanceJump f = f := by simp [advanceJump, hj]
    rw [hadv] at h1 h2
    obtain ⟨g1, g2⟩ := ih (frameIter sin cos f q) (h1.trans hj)
      (fun a ha => hquiet a (List.mem_cons_of_mem q ha))
    unfold runFrames at g1 g2 ⊢
    rw [List.foldl_cons, g1, g2]
    exact ⟨rfl, h2⟩

/-- The jump flag and the accumulator after some frames without a new trigger,
started with the accumulator at `m / 10`. -/
theorem runFrames_clock (sin cos : ℚ → ℚ) (queues : List (List Event)) (f : Frame) (m : ℕ)
    (hm : m ≤ 101) (hj : f.jumping = true) (ht : f.time = (m : ℚ) / 10)
    (hquiet : ∀ q ∈ queues, ∀ e ∈ q, e ≠ Event.space) :
    (m + queues.length ≤ 101 →
        (runFrames sin cos f queues).jumping = true ∧
          (runFrames sin cos f queues).time = ((m + queues.length : ℕ) : ℚ) / 10) ∧
      (102 ≤ m + queues.length →
        (runFrames sin cos f queues).jumping = false ∧
          (runFrames sin cos f queues).time = 102 / 10) := by
  induction queues generalizing f m with
  | nil =>
    refine ⟨fun _ => ⟨hj, by simpa using ht⟩, fun h => ?_⟩
    simp only [List.length_nil, Nat.add_zero] at h
    omega
  | cons q qs ih =>
    obtain ⟨h1, h2⟩ := frameIter_clock sin cos q f (hquiet q (List.mem_cons_self q qs))
    have hquiet2 : ∀ a ∈ qs, ∀ e ∈ a, e ≠ Event.space :=
      fun a ha => hquiet a (List.mem_cons_of_mem q ha)
    have hrun : runFrames sin cos f (q :: qs) = runFrames sin cos (frameIter sin cos f q) qs := rfl
    rw [hrun]
    have hlen : m + (q :: qs).length = (m + 1) + qs.length := by
      simp only [List.length_cons]
      omega
    rw [hlen]
    have hadv : (advanceJump f).jumping = (jump f.time).2 ∧
        (advanceJump f).time = f.time + 1 / 10 := by
      simp [advanceJump, hj]
    have htime : (frameIter sin cos f q).time = ((m + 1 : ℕ) : ℚ) / 10 := by
      rw [h2, hadv.2, ht]
      push_cast
      ring
    by_cases hm100 : m ≤ 100
    · have hact : (jump f.time).2 = true := by
        rw [ht]
        apply jump_active_of_le
        · positivity
        · have : (m : ℚ) ≤ 100 := by exact_mod_cast hm100
          linarith
      exact ih (frameIter sin cos f q) (m + 1) (by omega) (by rw [h1, hadv.1, hact]) htime
        hquiet2
    · have hm101 : m = 101 := by omega
      subst hm101
      have hfin : jump f.time = (0, false) := by
        rw [ht]
        apply jump_finished_of_gt
        norm_num
      have hj2 : (frameIter sin cos f q).jumping = false := by rw [h1, hadv.1, hfin]
      obtain ⟨g1, g2⟩ := runFrames_idle_clock sin cos qs (frameIter sin cos f q) hj2 hquiet2
      refine ⟨fun h => by omega, fun _ => ⟨g1, ?_⟩⟩
      rw [g2, htime]
      norm_num

theorem handleEvent_aDown_camz (sin cos : ℚ → ℚ) (f : Frame) :
    (handleEvent sin cos f Event.aDown).camz = f.camz + 1 := by
  have h : (handleEvent sin cos f Event.aDown).camz = (syncGoal f).camz + 1 := rfl
  rw [h, (syncGoal_jump_fields f).2.2]

theorem runFrames_append_one (sin cos : ℚ → ℚ) (f : Frame) (queues : List (List Event))
    (q : List Event) :
    runFrames sin cos f (queues ++ [q]) = frameIter sin cos (runFrames sin cos f queues) q := by
  unfold runFrames
  rw [List.foldl_append]
  rfl

/-- C15, counterexample: the jump of `jumpStartFrame` is never retriggered.  101 frames
without events follow, then a frame in which the A key is polled.  That frame
evaluates `jump` at 10.1, which ends the jump and writes height 0; the A key,
handled afterwards in the same frame, raises the camera.  The jump is over
(`jumping` false, accumulator at 10.2) and the camera height is 1, not 0. -/
theorem camera_height_after_jump_can_differ :
    jumpStartFrame.jumping = true ∧ jumpStartFrame.time = 0 ∧
      (∀ q ∈ List.replicate 101 ([] : List Event) ++ [[Event.aDown]], ∀ e ∈ q,
        e ≠ Event.space) ∧
      (runFrames zeroTrig zeroTrig jumpStartFrame
        (List.replicate 101 [] ++ [[Event.aDown]])).jumping = false ∧
      (runFrames zeroTrig zeroTrig jumpStartFrame
        (List.replicate 101 [] ++ [[Event.aDown]])).time = 51 / 5 ∧
      (runFrames zeroTrig zeroTrig jumpStartFrame
        (List.replicate 101 [] ++ [[Event.aDown]])).camz = 1 := by
  have hcalm : ∀ q ∈ List.replicate 101 ([] : List Event), ∀ e ∈ q, e.leavesJump = true := by
    intro q hq e he
    rw [List.eq_of_mem_replicate hq] at he
    simp at he
  have h101 := (runFrames_jumping zeroTrig zeroTrig (List.replicate 101 []) jumpStartFrame 0
    (by omega) rfl (by norm_num [jumpStartFrame, handleEvent]) hcalm).1
    (by simp)
  simp only [List.length_replicate, Nat.zero_add] at h101
  obtain ⟨hj, ht⟩ := h101
  have hfin : jump ((101 : ℕ) / 10 : ℚ) = (0, false) :=
    jump_finished_of_gt _ (by norm_num)
  have hadv : (advanceJump (runFrames zeroTrig zeroTrig jumpStartFrame
        (List.replicate 101 []))).jumping = false ∧
      (advanceJump (runFrames zeroTrig zeroTrig jumpStartFrame
        (List.replicate 101 []))).camz = 0 ∧
      (advanceJump (runFrames zeroTrig zeroTrig jumpStartFrame
        (List.replicate 101 []))).time = 51 / 5 := by
    simp only [advanceJump, hj, if_true, ht, hfin]
    norm_num
  obtain ⟨c1, c2⟩ := handleEvent_clock zeroTrig zeroTrig
    (advanceJump (runFrames zeroTrig zeroTrig jumpStartFrame (List.replicate 101 [])))
    Event.aDown (by decide)
  refine ⟨rfl, rfl, ?_, ?_, ?_, ?_⟩
  · intro q hq e he
    rcases List.mem_append.mp hq with h1 | h1
    · rw [List.eq_of_mem_replicate h1] at he
      simp at he
    · rw [List.mem_singleton.mp h1] at he
      rw [List.mem_singleton.mp he]
      decide
  · rw [runFrames_append_one]
    show (handleEvent zeroTrig zeroTrig _ Event.aDown).jumping = false
    rw [c1, hadv.1]
  · rw [runFrames_append_one]
    show (handleEvent zeroTrig zeroTrig _ Event.aDown).time = 51 / 5
    rw [c2, hadv.2.2]
  · rw [runFrames_append_one]
    show (handleEvent zeroTrig zeroTrig _ Event.aDown).camz = 1
    rw [handleEvent_aDown_camz, hadv.2.1]
    norm_num

/-- C15, amended: a jump is triggered by the space key (`jumping = true`, `time = 0`).  If
the frames that follow poll no space key, then after k of them, for k <= 101,
the jump is still marked active and the accumulator is 0.1 * k, so the next
frame evaluates `jump` at 0.1 * k; that call reports active for every k <= 100
and finished, with height 0, for k = 101.  After 102 or more frames `jumping`
is false and the accumulator stays at 10.2; the camera height is 0 then,
provided no A or D key, which change the height by hand, was polled. -/
theorem jump_finishes (sin cos : ℚ → ℚ) (f : Frame) (queues : List (List Event))
    (hj : f.jumping = true) (ht : f.time = 0)
    (hquiet : ∀ q ∈ queues, ∀ e ∈ q, e ≠ Event.space) :
    (∀ g : Frame, (handleEvent sin cos g Event.space).jumping = true ∧
        (handleEvent sin cos g Event.space).time = 0) ∧
      (∀ k : ℕ, k ≤ 100 → (jump ((k : ℚ) / 10)).2 = true) ∧
      jump (101 / 10) = (0, false) ∧
      (queues.length ≤ 101 →
        (runFrames sin cos f queues).jumping = true ∧
          (runFrames sin cos f queues).time = (queues.length : ℚ) / 10 ∧
          (advanceJump (runFrames sin cos f queues)).jumping
            = (jump ((queues.length : ℚ) / 10)).2 ∧
          (advanceJump (runFrames sin cos f queues)).camz
            = (jump ((queues.length : ℚ) / 10)).1) ∧
      (102 ≤ queues.length →
        (runFrames sin cos f queues).jumping = false ∧
          (runFrames sin cos f queues).time = 102 / 10 ∧
          (advanceJump (runFrames sin cos f queues)).time = 102 / 10 ∧
          ((∀ q ∈ queues, ∀ e ∈ q, e.leavesJump = true) →
            (runFrames sin cos f queues).camz = 0)) := by
  have hrun := runFrames_clock sin cos queues f 0 (by omega) hj (by simp [ht]) hquiet
  simp only [Nat.zero_add] at hrun
  refine ⟨fun g => ⟨rfl, rfl⟩, fun k hk => ?_, jump_finished_of_gt _ (by norm_num), fun h => ?_,
    fun h => ?_⟩
  · apply jump_active_of_le
    · positivity
    · have : (k : ℚ) ≤ 100 := by exact_mod_cast hk
      linarith
  · obtain ⟨h1, h2⟩ := hrun.1 h
    refine ⟨h1, h2, ?_, ?_⟩
    · simp [advanceJump, h1, h2]
    · simp [advanceJump, h1, h2]
  · obtain ⟨h1, h3⟩ := hrun.2 h
    refine ⟨h1, h3, ?_, fun hcalm => ?_⟩
    · simp [advanceJump, h1, h3]
    · have hz := runFrames_jumping sin cos queues f 0 (by omega) hj (by simp [ht]) hcalm
      simp only [Nat.zero_add] at hz
      exact (hz.2 h).2.1

/-- Witness for C15 (amended): the jump of `jumpStartFrame`.  After two frames, one
of them with a rotation, it is still active with the accumulator at 0.2; after
102 frames without events it is over, the accumulator is at 10.2 and the camera
height is 0. -/
theorem jump_finishes_witness :
    ((runFrames zeroTrig zeroTrig jumpStartFrame [[], [Event.left]]).jumping = true ∧
        (runFrames zeroTrig zeroTrig jumpStartFrame [[], [Event.left]]).time
          = ((2 : ℕ) : ℚ) / 10) ∧
      ((runFrames zeroTrig zeroTrig jumpStartFrame (List.replicate 102 [])).jumping = false ∧
        (runFrames zeroTrig zeroTrig jumpStartFrame (List.replicate 102 [])).time = 102 / 10 ∧
        (runFrames zeroTrig zeroTrig jumpStartFrame (List.replicate 102 [])).camz = 0) :=
  have h2 := (jump_finishes zeroTrig zeroTrig jumpStartFrame [[], [Event.left]] rfl rfl
    (by
      intro q hq e he
      simp only [List.mem_cons, List.mem_singleton, List.not_mem_nil, or_false] at hq
      rcases hq with rfl | rfl
      · simp at he
      · simp only [List.mem_singleton] at he
        subst he
        decide)).2.2.2.1 (by decide)
  have h102 := (jump_finishes zeroTrig zeroTrig jumpStartFrame (List.replicate 102 []) rfl rfl
    (by
      intro q hq e he
      rw [List.eq_of_mem_replicate hq] at he
      simp at he)).2.2.2.2 (by simp)
  ⟨⟨h2.1, h2.2.1⟩, h102.1, h102.2.1, h102.2.2.2 (by
      intro q hq e he
      rw [List.eq_of_mem_replicate hq] at he
      simp at he)⟩

/-! ## C16: an open door has its key -/

theorem forall₂_mem_right {α : Type} {R : α → α → Prop} {l l2 : List α}
    (h : List.Forall₂ R l l2) (b : α) (hb : b ∈ l2) : ∃ a ∈ l, R a b := by
  induction h with
  | nil => simp at hb
  | cons hab _ ih =>
    rcases List.mem_cons.mp hb with rfl | hb2
    · exact ⟨_, List.mem_cons_self _ _, hab⟩
    · obtain ⟨a, ha, hr⟩ := ih hb2
      exact ⟨a, List.mem_cons_of_mem _ ha, hr⟩

theorem openHasKey_of_forall₂ {ds ds2 : List Door}
    (h : List.Forall₂ (fun d d2 => (d.isOpen = true → d.have_key = true) →
      (d2.isOpen = true → d2.have_key = true)) ds ds2)
    (hinv : OpenHasKey ds) : OpenHasKey ds2 := by
  intro d2 hd2
  obtain ⟨d, hd, hr⟩ := forall₂_mem_right h d2 hd2
  exact hr (hinv d hd)

theorem openHasKey_collision (s : World) (x y : ℚ) (h : OpenHasKey s.player.doors) :
    OpenHasKey (collision s x y).1.player.doors := by
  refine openHasKey_of_forall₂ (collision_forall₂ _ s x y (fun d hd => hd)
    (fun d _ hk _ _ => hk) (fun d hd => ?_) (fun d _ ho => ?_)) h
  · unfold pickKey
    split_ifs
    · exact hd
    · exact fun _ => rfl
    · exact hd
  · exact absurd ho (by simp [resetDoor])

theorem openHasKey_move_key (s : World) (a b viewx viewy : ℚ) (h : OpenHasKey s.player.doors) :
    OpenHasKey (move_key s a b viewx viewy).player.doors := by
  refine openHasKey_of_forall₂ ((move_keyLoop_flags a b viewx viewy 0 s.player.doors).imp
    (fun d d2 hf hd ho => ?_)) h
  rw [hf.2]
  exact hd (hf.1 ▸ ho)

theorem openHasKey_runCalls (calls : List Call) (s : World) (h : OpenHasKey s.player.doors) :
    OpenHasKey (runCalls s calls).player.doors := by
  induction calls generalizing s with
  | nil => exact h
  | cons c cs ih =>
    cases c with
    | collision x y => exact ih _ (openHasKey_collision s x y h)
    | move_key a b viewx viewy => exact ih _ (openHasKey_move_key s a b viewx viewy h)

/-- The door loop sets `open` on at most one door, and that door holds its key. -/
theorem doorLoop_opens_one (x y : ℚ) (ds : List Door) (res : Bool) (ds2 : List Door)
    (h : doorLoop x y ds = some (res, ds2)) :
    ∃ k : ℕ, ∀ (i : ℕ) (D D2 : Door), ds[i]? = some D → ds2[i]? = some D2 →
      D.isOpen = false → D2.isOpen = true → i = k ∧ D.have_key = true := by
  induction ds generalizing ds2 with
  | nil => simp [doorLoop] at h
  | cons d ds ih =>
    have hrec : Option.map (fun r : Bool × List Door => (r.1, d :: r.2)) (doorLoop x y ds)
        = some (res, ds2) →
        ∃ k : ℕ, ∀ (i : ℕ) (D D2 : Door), (d :: ds)[i]? = some D → ds2[i]? = some D2 →
          D.isOpen = false → D2.isOpen = true → i = k ∧ D.have_key = true := by
      intro hm
      cases hd : doorLoop x y ds with
      | none => simp [hd] at hm
      | some p =>
        obtain ⟨b, t⟩ := p
        simp only [hd, Option.map_some', Option.some.injEq, Prod.mk.injEq] at hm
        obtain ⟨rfl, rfl⟩ := hm
        obtain ⟨k, hk⟩ := ih t hd
        refine ⟨k + 1, fun i D D2 hD hD2 ho ho2 => ?_⟩
        cases i with
        | zero =>
          simp only [List.getElem?_cons_zero, Option.some.injEq] at hD hD2
          subst hD
          subst hD2
          rw [ho] at ho2
          exact Bool.noConfusion ho2
        | succ n =>
          simp only [List.getElem?_cons_succ] at hD hD2
          obtain ⟨h1, h2⟩ := hk n D D2 hD hD2 ho ho2
          exact ⟨by omega, h2⟩
    have hsame : ∀ (l : List Door) (i : ℕ) (D D2 : Door), l[i]? = some D → l[i]? = some D2 →
        D.isOpen = false → D2.isOpen = true → False := by
      intro l i D D2 hD hD2 ho ho2
      rw [hD] at hD2
      have := Option.some.inj hD2
      subst this
      rw [ho] at ho2
      exact Bool.noConfusion ho2
    unfold doorLoop at h
    split_ifs at h with hop hr hk
    · exact hrec h
    · simp only [Option.some.injEq, Prod.mk.injEq] at h
      obtain ⟨_, rfl⟩ := h
      refine ⟨0, fun i D D2 hD hD2 ho ho2 => ?_⟩
      cases i with
      | zero =>
        simp only [List.getElem?_cons_zero, Option.some.injEq] at hD
        subst hD
        exact ⟨rfl, hk⟩
      | succ n =>
        simp only [List.getElem?_cons_succ] at hD hD2
        exact (hsame ds n D D2 hD hD2 ho ho2).elim
    · simp only [Option.some.injEq, Prod.mk.injEq] at h
      obtain ⟨_, rfl⟩ := h
      exact ⟨0, fun i D D2 hD hD2 ho ho2 => (hsame _ i D D2 hD hD2 ho ho2).elim⟩
    · exact hrec h

theorem collision_opens_one (s : World) (x y : ℚ) :
    ∃ k : ℕ, ∀ (i : ℕ) (D D2 : Door), s.player.doors[i]? = some D →
      (collision s x y).1.player.doors[i]? = some D2 →
      D.isOpen = false → D2.isOpen = true → i = k ∧ D.have_key = true := by
  by_cases hw : wallLoop x y s.walls = true
  · rw [collision_of_wall s x y hw]
    refine ⟨0, fun i D D2 hD hD2 ho ho2 => ?_⟩
    rw [hD] at hD2
    have := Option.some.inj hD2
    subst this
    rw [ho] at ho2
    exact Bool.noConfusion ho2
  · have hw2 : wallLoop x y s.walls = false := by simpa using hw
    cases hd : doorLoop x y s.player.doors with
    | some p =>
      rw [collision_of_door s x y p.1 p.2 hw2 hd]
      exact doorLoop_opens_one x y _ p.1 p.2 hd
    | none =>
      have hpick : ∀ d, (pickKey x y d).isOpen = d.isOpen := by
        intro d
        unfold pickKey
        split_ifs <;> rfl
      cases hg : near x y s.player.goalx s.player.goaly with
      | true =>
        rw [collision_of_goal s x y hw2 hd hg]
        refine ⟨0, fun i D D2 hD hD2 ho ho2 => ?_⟩
        simp only [List.map_map, List.getElem?_map, hD, Option.map_some', Option.some.injEq,
          Function.comp_apply] at hD2
        subst hD2
        simp [resetDoor] at ho2
      | false =>
        rw [collision_of_clear s x y hw2 hd hg]
        refine ⟨0, fun i D D2 hD hD2 ho ho2 => ?_⟩
        simp only [List.getElem?_map, hD, Option.map_some', Option.some.injEq] at hD2
        subst hD2
        rw [hpick, ho] at ho2
        exact Bool.noConfusion ho2

/-- C16: starting from a world in which every door has `open` and `have_key` clear,
after any sequence of `collision` and `move_key` calls every open door has its
key.  In any world, one call of `collision` sets `open` on at most one door
(there is one list position all newly opened doors must sit at), and the door
it opens had `have_key` set before the call. -/
theorem open_door_has_key (s : World) (calls : List Call)
    (hinit : ∀ d ∈ s.player.doors, d.isOpen = false ∧ d.have_key = false) :
    (∀ d ∈ (runCalls s calls).player.doors, d.isOpen = true → d.have_key = true) ∧
      (∀ (t : World) (x y : ℚ), ∃ k : ℕ, ∀ (i : ℕ) (D D2 : Door),
        t.player.doors[i]? = some D → (collision t x y).1.player.doors[i]? = some D2 →
        D.isOpen = false → D2.isOpen = true → i = k ∧ D.have_key = true) := by
  refine ⟨openHasKey_runCalls calls s (fun d hd ho => ?_), collision_opens_one⟩
  rw [(hinit d hd).1] at ho
  exact Bool.noConfusion ho

/-- Witness for C16: `twoKeyWorld` starts with both doors closed and keyless; a key
pickup, a `move_key` call and an approach to the first door follow.  The second
part is the call that opens the door of `keyHeldWorld`. -/
theorem open_door_has_key_witness :
    (∀ d ∈ (runCalls twoKeyWorld
          [Call.collision 4 (41 / 10), Call.move_key (-1 / 10) (-1 / 10) 0 1,
            Call.collision 8 (15 / 2)]).player.doors,
        d.isOpen = true → d.have_key = true) ∧
      ∃ k : ℕ, ∀ (i : ℕ) (D D2 : Door),
        keyHeldWorld.player.doors[i]? = some D →
        (collision keyHeldWorld 3 3).1.player.doors[i]? = some D2 →
        D.isOpen = false → D2.isOpen = true → i = k ∧ D.have_key = true :=
  have h := open_door_has_key twoKeyWorld
    [Call.collision 4 (41 / 10), Call.move_key (-1 / 10) (-1 / 10) 0 1, Call.collision 8 (15 / 2)]
    (by
      intro d hd
      simp only [twoKeyWorld, mkWorld, List.mem_cons, List.mem_singleton, List.not_mem_nil,
        or_false] at hd
      rcases hd with rfl | rfl <;> exact ⟨rfl, rfl⟩)
  ⟨h.1, h.2 keyHeldWorld 3 3⟩

end Maze
